import Mathlib

/-!  Verification development for the sql-sheets export pipeline.

The TypeScript sources are shallowly embedded below.  Strings are modelled as
lists of characters (`Str`), JavaScript `undefined`/optional values as
`Option`, numbers as `Nat`/`Int`, and the external Google Sheets client as a
trace of abstract operations.  Each embedded definition is named after the
source function it translates.
-/

namespace SqlSheets

/-- Strings, modelled as lists of characters. -/
abbrev Str := List Char

/-- Leading-whitespace removal (the first half of JavaScript `trim`). -/
def dropLeading (s : Str) : Str := s.dropWhile Char.isWhitespace

/-- Trailing-whitespace removal (the second half of JavaScript `trim`). -/
def dropTrailing (s : Str) : Str := (s.reverse.dropWhile Char.isWhitespace).reverse

/-- JavaScript `String.prototype.trim`. -/
def trim (s : Str) : Str := dropTrailing (dropLeading s)

/-- The part of `s` strictly before the first occurrence of `sep`
(the whole string when `sep` does not occur) — `indexOf`/`substring(0, i)`. -/
def beforeFirst (sep : Char) (s : Str) : Str := s.takeWhile (fun c => c ≠ sep)

/-- The part of `s` strictly after the first occurrence of `sep`
(empty when `sep` does not occur) — `substring(i + 1)`. -/
def afterFirst (sep : Char) (s : Str) : Str := (s.dropWhile (fun c => c ≠ sep)).tail

/-- Decimal digit character for a digit value (`0 ≤ d ≤ 9`). -/
def digitChar (d : Nat) : Char :=
  match d with
  | 0 => '0' | 1 => '1' | 2 => '2' | 3 => '3' | 4 => '4'
  | 5 => '5' | 6 => '6' | 7 => '7' | 8 => '8' | _ => '9'

/-- Fuelled helper for decimal rendering of a natural number. -/
def natToStrAux : Nat → Nat → Str
  | 0, _ => []
  | fuel + 1, n =>
    if n < 10 then [digitChar n]
    else natToStrAux fuel (n / 10) ++ [digitChar (n % 10)]

/-- Decimal rendering of a natural number (JavaScript `Number.prototype.toString`). -/
def natToStr (n : Nat) : Str := natToStrAux (n + 1) n

/-- JavaScript `Number(...)` on a string of decimal digits. -/
def strToNat (s : Str) : Nat := s.foldl (fun n c => n * 10 + (c.toNat - 48)) 0

/-- Word character of the regex class `[a-zA-Z0-9_]` (`\w`). -/
def isWordChar (c : Char) : Bool := c.isAlphanum || c = '_'

/-! ## `SqlSheetConfiguration` (src/src/models/SqlSheetConfiguration.ts) -/

/-- Result record of `parseStartCellParameter`. -/
structure StartParamResult where
  startCell : Option Str
  startNamedRange : Option Str
  deriving DecidableEq, Repr

/-- Result record of `parseSpreadsheetIdParameter`. -/
structure SpreadsheetIdResult where
  spreadsheetId : Option Str
  spreadsheetTitle : Option Str
  deriving DecidableEq, Repr

/-- Result record of `parseSheetNameParameter`. -/
structure SheetNameResult where
  sheetId : Option Nat
  sheetName : Option Str
  deriving DecidableEq, Repr

/-- Regex `^[A-Za-z]+[0-9]+$` applied to the trimmed value
(`looksLikeCellReference`). -/
def looksLikeCellReference (value : Str) : Bool :=
  let t := trim value
  let a := t.takeWhile Char.isAlpha
  let b := t.dropWhile Char.isAlpha
  (!a.isEmpty) && (!b.isEmpty) && b.all Char.isDigit

/-- Regex `^offset\s+\d+$` (case-insensitive) applied to the trimmed value
(`looksLikeOffsetDirective`). -/
def looksLikeOffsetDirective (value : Str) : Bool :=
  let t := trim value
  let hd := (t.take 6).map Char.toLower
  let rest := t.drop 6
  let w := rest.takeWhile Char.isWhitespace
  let d := rest.dropWhile Char.isWhitespace
  (hd == ( "offset").data) && (!w.isEmpty) && (!d.isEmpty) && d.all Char.isDigit

/-- `SqlSheetConfiguration.parseStartCellParameter`.  The two branches of the
source's `if (looksLikeCellReference(after) || ...)` assign the same value, so
they are collapsed here. -/
def parseStartCellParameter (value : Option Str) : StartParamResult :=
  match value with
  | none => ⟨none, none⟩
  | some v =>
    if v = [] then ⟨none, none⟩
    else
      let trimmedValue := trim v
      if trimmedValue = [] then ⟨none, none⟩
      else if !(trimmedValue.contains '|') then
        if looksLikeCellReference trimmedValue || looksLikeOffsetDirective trimmedValue then
          ⟨some trimmedValue, none⟩
        else ⟨none, some trimmedValue⟩
      else
        let beforeSeparator := trim (beforeFirst '|' trimmedValue)
        let afterSeparator := trim (afterFirst '|' trimmedValue)
        { startCell := if afterSeparator ≠ [] then some afterSeparator else none
          startNamedRange := if beforeSeparator ≠ [] then some beforeSeparator else none }

/-- `SqlSheetConfiguration.formatStartCellParameter`. -/
def formatStartCellParameter (namedRange startCell : Option Str) : Str :=
  let trimmedRange := match namedRange with | some s => trim s | none => []
  let trimmedCell := match startCell with | some s => trim s | none => []
  if trimmedRange ≠ [] ∧ trimmedCell ≠ [] then trimmedRange ++ ( " | ").data ++ trimmedCell
  else if trimmedRange ≠ [] then trimmedRange
  else trimmedCell

/-- `SqlSheetConfiguration.parseSpreadsheetIdParameter`. -/
def parseSpreadsheetIdParameter (value : Option Str) : SpreadsheetIdResult :=
  match value with
  | none => ⟨none, none⟩
  | some v =>
    if v = [] then ⟨none, none⟩
    else
      let trimmedValue := trim v
      if trimmedValue = [] then ⟨none, none⟩
      else if !(trimmedValue.contains '|') then ⟨some trimmedValue, none⟩
      else
        let idPart := trim (beforeFirst '|' trimmedValue)
        let titlePart := trim (afterFirst '|' trimmedValue)
        { spreadsheetId := if idPart ≠ [] then some idPart else none
          spreadsheetTitle := if titlePart ≠ [] then some titlePart else none }

/-- `SqlSheetConfiguration.formatSpreadsheetIdParameter`. -/
def formatSpreadsheetIdParameter (spreadsheetId spreadsheetTitle : Option Str) : Str :=
  let idText := match spreadsheetId with | some s => trim s | none => []
  let titleText := match spreadsheetTitle with | some s => trim s | none => []
  if idText ≠ [] ∧ titleText ≠ [] then idText ++ ( " | ").data ++ titleText
  else idText

/-- Regex `^\d+$`. -/
def isAllDigits (s : Str) : Bool := (!s.isEmpty) && s.all Char.isDigit

/-- `SqlSheetConfiguration.parseSheetNameParameter`. -/
def parseSheetNameParameter (value : Option Str) : SheetNameResult :=
  match value with
  | none => ⟨none, none⟩
  | some v =>
    if v = [] then ⟨none, none⟩
    else
      let trimmedValue := trim v
      if trimmedValue = [] then ⟨none, none⟩
      else if !(trimmedValue.contains '|') then
        if isAllDigits trimmedValue then ⟨some (strToNat trimmedValue), none⟩
        else ⟨none, some trimmedValue⟩
      else
        let idPart := trim (beforeFirst '|' trimmedValue)
        let namePart := trim (afterFirst '|' trimmedValue)
        { sheetId := if idPart ≠ [] ∧ isAllDigits idPart then some (strToNat idPart) else none
          sheetName := if namePart ≠ [] then some namePart else none }

/-- `SqlSheetConfiguration.formatSheetNameParameter`.  A Lean `Nat` is never
`NaN`, so the `Number.isNaN` guard of the source is always passed. -/
def formatSheetNameParameter (sheetId : Option Nat) (sheetName : Option Str) : Str :=
  let idText := match sheetId with | some n => natToStr n | none => []
  let nameText := match sheetName with | some s => trim s | none => []
  if idText ≠ [] ∧ nameText ≠ [] then idText ++ ( " | ").data ++ nameText
  else if idText ≠ [] then idText
  else nameText

/-- `SqlSheetConfiguration.stringToBoolean`. -/
def stringToBoolean (value : Option Str) : Option Bool :=
  match value with
  | none => none
  | some v =>
    let s := v.map Char.toLower
    some (s == ( "true").data || s == ( "1").data || s == ( "yes").data)

/-! ## Column arithmetic (src/src/services/googleSheetsExportService.ts) -/

/-- The base-26 value of a column reference: the loop
`value = value * 26 + (charCodeAt(i) - 64)` of `incrementColumn`. -/
def colVal (column : Str) : Nat :=
  column.foldl (fun v c => v * 26 + (c.toNat - 64)) 0

/-- Capital letter with code `65 + r` for `0 ≤ r ≤ 25`
(`String.fromCharCode(65 + remainder)`). -/
def letterChar (r : Nat) : Char :=
  match r with
  | 0 => 'A' | 1 => 'B' | 2 => 'C' | 3 => 'D' | 4 => 'E' | 5 => 'F' | 6 => 'G'
  | 7 => 'H' | 8 => 'I' | 9 => 'J' | 10 => 'K' | 11 => 'L' | 12 => 'M' | 13 => 'N'
  | 14 => 'O' | 15 => 'P' | 16 => 'Q' | 17 => 'R' | 18 => 'S' | 19 => 'T' | 20 => 'U'
  | 21 => 'V' | 22 => 'W' | 23 => 'X' | 24 => 'Y' | _ => 'Z'

/-- Fuelled helper for the `while (value > 0)` loop converting a base-26 value
back to a column reference. -/
def numToColAux : Nat → Nat → Str
  | 0, _ => []
  | fuel + 1, v =>
    if v = 0 then []
    else numToColAux fuel ((v - 1) / 26) ++ [letterChar ((v - 1) % 26)]

/-- Conversion of a positive base-26 value to a column reference
(the second loop of `incrementColumn`, also `indexToColumn` after its `+ 1`). -/
def numToCol (v : Nat) : Str := numToColAux v v

/-- `GoogleSheetsService.incrementColumn`.  `steps` is an `Int` because the
callers pass `width - 1`, which is `-1` for width `0`. -/
def incrementColumn (column : Str) (steps : Int) : Str :=
  if steps ≤ 0 then column
  else numToCol (colVal column + steps.toNat)

/-- `GoogleSheetsService.columnToIndex` (0-based index of a column letter). -/
def columnToIndex (column : Str) : Nat := colVal column - 1

/-- `GoogleSheetsService.indexToColumn` (0-based index to a column letter). -/
def indexToColumn (index : Nat) : Str := numToCol (index + 1)

/-! ## Data processing inside `uploadDataToSheet` -/

/-- A spreadsheet cell value.  The blank cell (JavaScript `""`, and the `null`
filler of `transposeData`) is the empty string. -/
abbrev Cell := Str

/-- `GoogleSheetsService.transposeData`.  The `null` filler of the source is
identified with the blank cell. -/
def transposeData (data : List (List Cell)) : List (List Cell) :=
  if data = [] then []
  else
    let maxRowLength := data.foldl (fun m r => max m r.length) 0
    (List.range maxRowLength).map fun j => data.map fun row => row.getD j []

/-- Right-pad a row with blank cells to a minimum width
(the `while (rowValues.length < minimumTitleWidth)` loop). -/
def padRow (width : Nat) (row : List Cell) : List Cell :=
  row ++ List.replicate (width - row.length) []

/-- The title-row step of `uploadDataToSheet` (lines 605-641): when a
non-empty title is configured, pad all rows to width at least 2 and prepend a
title row whose first cell is the title text and whose last cell is the
execution timestamp.  Returns the new rows together with
`titleTimestampColumnIndex`. -/
def addTitleRow (data : List (List Cell)) (tableTitle : Option Str)
    (executedAtDisplay : Str) : List (List Cell) × Option Nat :=
  let titleText := trim (tableTitle.getD [])
  let hasTitleRow := titleText ≠ []
  if hasTitleRow then
    let titleWidth₀ := match data with | [] => 1 | r :: _ => r.length
    let data₁ := if titleWidth₀ < 2 then data.map (padRow 2) else data
    let titleWidth := if titleWidth₀ < 2 then 2 else titleWidth₀
    let titleRow := titleText :: List.replicate (titleWidth - 2) [] ++ [executedAtDisplay]
    ((titleRow :: data₁), some (titleWidth - 1))
  else (data, none)

/-- The data-processing portion of `uploadDataToSheet`: title row (if any)
followed by the optional transpose. -/
def processData (data : List (List Cell)) (tableTitle : Option Str)
    (transpose : Bool) (executedAtDisplay : Str) : List (List Cell) × Option Nat :=
  let (withTitle, tsIdx) := addTitleRow data tableTitle executedAtDisplay
  ((if transpose then transposeData withTitle else withTitle), tsIdx)

/-- The maximum row width of the processed data (the
`processedData.forEach(row => dataMaxWidth = Math.max(...))` loop). -/
def dataMaxWidth (processedData : List (List Cell)) : Nat :=
  processedData.foldl (fun m r => max m r.length) 0

/-- The sheet-name prefixing of the A1 range in `uploadDataToSheet`
(lines 671-679): a purely numeric identifier is used unquoted; a name with a
character outside `[a-zA-Z0-9_]` or starting with a digit is wrapped in single
quotes with internal single quotes doubled; other names are used bare. -/
def rangeSheetQualifier (s : Str) : Str :=
  let quoteChar : Char := Char.ofNat 39
  if isAllDigits s then s
  else if s.any (fun c => !isWordChar c) || (match s with | c :: _ => c.isDigit | [] => false) then
    quoteChar :: (s.flatMap fun c => if c = quoteChar then [quoteChar, quoteChar] else [c])
      ++ [quoteChar]
  else s

/-- The A1 range computation of `uploadDataToSheet` (lines 649-683):
`rangePrefix!columnrow:endColumnendRow` with
`endRow = row + processedData.length - 1` and
`endColumn = incrementColumn(column, dataMaxWidth - 1)`. -/
def computeRange (sheetNameStr : Str) (column : Str) (row : Nat)
    (processedData : List (List Cell)) : Str :=
  let endRow := row + processedData.length - 1
  let endColumn := incrementColumn column ((dataMaxWidth processedData : Int) - 1)
  rangeSheetQualifier sheetNameStr ++ [ '!' ] ++ column ++ natToStr row
    ++ [ ':' ] ++ endColumn ++ natToStr endRow

/-! ## `clearContinuousRange` (src/src/services/googleSheetsExportService.ts 1528-1701) -/

/-- A cleared rectangle.  `startRow`/`endRow` are 1-based and inclusive,
`startColIndex`/`endColIndex` are 0-based and inclusive.  Both the
`values.clear` call (whose A1 range ends at `indexToColumn clearEndColIndex`
and row `clearEndRow`) and the `createClearFormatsRequest` batch request
(whose exclusive 0-based bounds are `clearEndRow` and `clearEndColIndex + 1`)
clear exactly this rectangle. -/
structure ClearRect where
  startRow : Nat
  endRow : Nat
  startColIndex : Nat
  endColIndex : Nat
  deriving DecidableEq, Repr

/-- `row.some(cell => cell !== undefined && cell !== null && cell !== "")`. -/
def rowNonBlank (row : List Cell) : Bool := row.any (fun cell => cell ≠ [])

/-- The `lastDataRow` loop of `clearContinuousRange`: index of the last row
with a non-blank cell (0 when none), plus one. -/
def lastDataRowOf (allValues : List (List Cell)) : Nat :=
  (allValues.enum.foldl (fun acc p => if rowNonBlank p.2 then p.1 else acc) 0) + 1

/-- The `lastDataCol` loop of `clearContinuousRange`: maximum column index of
a non-blank cell (0 when none), plus one. -/
def lastDataColOf (allValues : List (List Cell)) : Nat :=
  (allValues.foldl
    (fun acc row =>
      row.enum.foldl (fun a p => if p.2 ≠ ([] : Cell) then max a p.1 else a) acc)
    0) + 1

/-- `newData[0].length` when `newData` is non-empty, else `0` (the `numCols`
of `clearContinuousRange`). -/
def firstRowWidth (newData : List (List Cell)) : Nat :=
  match newData with | [] => 0 | r :: _ => r.length

/-- `GoogleSheetsService.clearContinuousRange`, reduced to the rectangle it
clears.  `allValues` is the value grid returned by the probe read of
`startColumn startRow : ZZ10000` (the network call is a parameter of the
model).  Returns `none` when nothing is cleared (the `maxRow === 0` early
return). -/
def clearContinuousRange (startColumn : Str) (startRow : Nat)
    (newData allValues : List (List Cell)) : Option ClearRect :=
  let numDataRows := newData.length
  let numCols := firstRowWidth newData
  let startColIndex := columnToIndex startColumn
  if allValues.length = 0 then none
  else
    let lastDataRow := lastDataRowOf allValues
    let lastDataCol := lastDataColOf allValues
    let clearEndRow := max (startRow + lastDataRow) (startRow + numDataRows)
    let clearEndColIndex := max (startColIndex + lastDataCol) (startColIndex + numCols)
    some ⟨startRow, clearEndRow, startColIndex, clearEndColIndex⟩

/-! ## Configuration record and `exportQueryToSheet` -/

/-- `SqlSheetConfiguration` (the value record; the constructor's `pre_files`
normalisation is not needed by the claims and the list is stored as given). -/
structure SqlSheetConfiguration where
  spreadsheet_id : Option Str := none
  sheet_name : Option Str := none
  sheet_id : Option Nat := none
  start_cell : Option Str := none
  start_named_range : Option Str := none
  name : Option Str := none
  table_name : Option Str := none
  pre_files : List Str := []
  transpose : Bool := false
  data_only : Bool := false
  skip : Bool := false
  spreadsheet_title : Option Str := none
  deriving DecidableEq, Repr

/-- `SqlSheetConfiguration.hasStartLocation`. -/
def hasStartLocation (c : SqlSheetConfiguration) : Bool :=
  (match c.start_cell with | some s => trim s ≠ [] | none => false)
  || (match c.start_named_range with | some s => trim s ≠ [] | none => false)

/-- `SqlSheetConfiguration.hasSheetIdentifier` (a Lean `Nat` is never `NaN`). -/
def hasSheetIdentifier (c : SqlSheetConfiguration) : Bool :=
  (match c.sheet_name with | some s => trim s ≠ [] | none => false) || c.sheet_id.isSome

/-- `GoogleSheetsService.parseCellReference`: regex
`^([A-Za-z]+)([0-9]+)$` on the trimmed reference, column uppercased, row a
positive integer; `none` models the thrown errors. -/
def parseCellReference (cellRef : Str) : Option (Str × Nat) :=
  let t := trim cellRef
  let a := t.takeWhile Char.isAlpha
  let b := t.dropWhile Char.isAlpha
  if a ≠ [] ∧ b ≠ [] ∧ b.all Char.isDigit then
    let row := strToNat b
    if row = 0 then none else some (a.map Char.toUpper, row)
  else none

/-- One abstract mutation issued to the Google Sheets client. -/
inductive SheetOp where
  | addSheet (title : Str)
  | clearValues (rect : ClearRect)
  | clearFormats (rect : ClearRect)
  | updateValues (range : Str) (values : List (List Cell))
  | applyFormatting (range : Str)
  | configureTable (tableName : Str)
  deriving DecidableEq, Repr

/-- `SheetUploadResult` (src/src/services/googleSheetsExportService.ts 357). -/
structure SheetUploadResult where
  range : Str
  sheetId : Option Nat
  deriving DecidableEq, Repr

/-- Environment of one `uploadDataToSheet` call: the answers the Google
Sheets API would give to its read requests. -/
structure SheetsEnv where
  /-- Sheet id matched by the verification read (`matchedSheetId`). -/
  existingSheetId : Option Nat := none
  /-- Sheet id returned by the `addSheet` auto-create request. -/
  createdSheetId : Option Nat := none
  /-- Value grid returned by the probe read inside `clearContinuousRange`. -/
  probeValues : List (List Cell) := []
  /-- `new Date().toLocaleString()` at execution time. -/
  executedAtDisplay : Str := []

/-- Options bag of `uploadDataToSheet`. -/
structure UploadOptions where
  startNamedRange : Option Str := none
  transpose : Bool := false
  tableTitle : Option Str := none
  dataOnly : Bool := false
  tableName : Option Str := none
  autoCreateSheet : Bool := true

/-- `GoogleSheetsService.uploadDataToSheet`, reduced to the trace of
mutations it issues and its returned result.  Logging, progress reporting and
API error handling are dropped; the formatting and table batch requests are
kept as single abstract operations. -/
def uploadDataToSheet (env : SheetsEnv) (data : List (List Cell))
    (sheetName : Nat ⊕ Str) (startCell : Str) (options : UploadOptions) :
    Except Str (List SheetOp × SheetUploadResult) := do
  let (column, row) ← match parseCellReference startCell with
    | some p => Except.ok p
    | none => Except.error (( "Invalid cell reference format").data)
  if (match sheetName with | Sum.inr s => (trim s).isEmpty | Sum.inl _ => false) then
    Except.error (( "Sheet name cannot be empty").data)
  else do
    let sheetNameStr := match sheetName with | Sum.inl n => natToStr n | Sum.inr s => s
    let sheetExists := env.existingSheetId.isSome
    let createOps :=
      if !sheetExists && (match sheetName with | Sum.inr _ => true | Sum.inl _ => false)
          && options.autoCreateSheet then [SheetOp.addSheet sheetNameStr] else []
    let targetSheetId :=
      if sheetExists then env.existingSheetId
      else if createOps ≠ [] then env.createdSheetId else none
    let (processedData, _tsIdx) :=
      processData data options.tableTitle options.transpose env.executedAtDisplay
    let range := computeRange sheetNameStr column row processedData
    let clearOps :=
      match clearContinuousRange column row processedData env.probeValues with
      | some rect => [SheetOp.clearValues rect, SheetOp.clearFormats rect]
      | none => []
    let updateOps := [SheetOp.updateValues range processedData]
    let formatOps := if !options.dataOnly then [SheetOp.applyFormatting range] else []
    let tableOps :=
      match options.tableName with
      | some t =>
        if trim t ≠ [] ∧ !options.transpose ∧ !options.dataOnly then
          [SheetOp.configureTable (trim t)]
        else []
      | none => []
    Except.ok (createOps ++ clearOps ++ updateOps ++ formatOps ++ tableOps,
      { range := range, sheetId := targetSheetId })

/-- One result record: an ordered list of column-name/value pairs. -/
abbrev ResultRecord := List (Str × Cell)

/-- Outcome of `GoogleSheetsExportService.exportQueryToSheet`: a thrown error
(validation failures before the `try` block) or a returned value (errors
inside the `try` are caught and turn into an `undefined` return). -/
inductive ExportOutcome where
  | threw (message : Str)
  | returned (result : Option SheetUploadResult)
  deriving DecidableEq, Repr

/-- `GoogleSheetsExportService.exportQueryToSheet`
(src/src/services/googleSheetsExportService.ts 20-176), as the pair of the
trace of spreadsheet mutations and the outcome.  `results` is the list the
Snowflake query execution returns. -/
def exportQueryToSheet (env : SheetsEnv) (sqlQuery : Str)
    (config : SqlSheetConfiguration) (snowflakeConfigured googleConfigured : Bool)
    (results : List ResultRecord) : List SheetOp × ExportOutcome :=
  let cleanedStartNamedRange := config.start_named_range.map trim
  let cleanedStartCell := config.start_cell.map trim
  if config.skip then ([], ExportOutcome.returned none)
  else if sqlQuery = [] then
    ([], ExportOutcome.threw (( "SQL query is required").data))
  else if (match config.spreadsheet_id with | none => true | some s => s = []) then
    ([], ExportOutcome.threw (( "Spreadsheet ID is required").data))
  else
    let sheetIdentifier : Option (Nat ⊕ Str) :=
      match config.sheet_id with
      | some n => some (Sum.inl n)
      | none => config.sheet_name.map Sum.inr
    match sheetIdentifier with
    | none => ([], ExportOutcome.threw (( "Sheet name or ID is required").data))
    | some ident =>
      if (match ident with | Sum.inr s => (trim s).isEmpty | Sum.inl _ => false) then
        ([], ExportOutcome.threw (( "Sheet name or ID is required").data))
      else if (match cleanedStartCell with | some s => s.isEmpty | none => true)
          && (match cleanedStartNamedRange with | some s => s.isEmpty | none => true) then
        ([], ExportOutcome.threw (( "A start cell or named range is required").data))
      else if (match cleanedStartCell with
          | some s => !s.isEmpty && (parseCellReference s).isNone
          | none => false) then
        ([], ExportOutcome.threw (( "Invalid start cell format").data))
      else if !snowflakeConfigured then ([], ExportOutcome.returned none)
      else if !googleConfigured then ([], ExportOutcome.returned none)
      else if results.length = 0 then ([], ExportOutcome.returned none)
      else
        let headers := (results.headD []).map Prod.fst
        let dataRows := results.map (fun r => r.map Prod.snd)
        let dataToUpload := if config.data_only then dataRows else headers :: dataRows
        let cellArg := match cleanedStartCell with
          | some s => if s ≠ [] then s else [] | none => []
        match uploadDataToSheet env dataToUpload ident cellArg
          { startNamedRange := match cleanedStartNamedRange with
              | some s => if s ≠ [] then some s else none | none => none
            transpose := config.transpose
            tableTitle := config.name
            dataOnly := config.data_only
            tableName := config.table_name } with
        | Except.ok (ops, result) => (ops, ExportOutcome.returned (some result))
        | Except.error _ => ([], ExportOutcome.returned none)

/-! ## Directive parser (`SqlFile.parse` / `extractDefaultParameters`) -/

/-- The two-character comment marker. -/
def dashDash : Str := [ '-', '-' ]

/-- A directive set: parameter key to value. -/
abbrev Params := Str → Option Str

/-- The empty directive set. -/
def emptyParams : Params := fun _ => none

/-- `currentParams[key] = value`. -/
def setParam (ps : Params) (k v : Str) : Params :=
  fun q => if q = k then some v else ps q

/-- Regex `^--(\w+):[\t ]*(.*)$` returning the key and the trimmed value
(`match[1]` and `match[2].trim()`). -/
def matchParamLine (l : Str) : Option (Str × Str) :=
  if l.take 2 = dashDash then
    let rest := l.drop 2
    let key := rest.takeWhile isWordChar
    match rest.dropWhile isWordChar with
    | ':' :: tail =>
      if key ≠ [] then
        some (key, trim (tail.dropWhile (fun c => c == Char.ofNat 9 || c == ' ')))
      else none
    | _ => none
  else none

/-- Regex `^--\s*\d+\s*$` on a trimmed line (the destination separator). -/
def isSeparatorLine (t : Str) : Bool :=
  (t.take 2 == dashDash) &&
    (let r := (t.drop 2).dropWhile Char.isWhitespace
     (!(r.takeWhile Char.isDigit).isEmpty) && (r.dropWhile Char.isDigit).all Char.isWhitespace)

/-- A line of a block's header region: blank, or starting (after trimming)
with the comment marker. -/
def isHeaderLine (l : Str) : Bool :=
  (trim l).isEmpty || ((trim l).take 2 == dashDash)

/-- The header region of a query block: its leading header lines. -/
def headerLinesOf (blockLines : List Str) : List Str := blockLines.takeWhile isHeaderLine

/-- The keys excluded from document-level defaults (`NON_INHERITABLE_DEFAULTS`). -/
def nonInheritableDefaults : List Str :=
  [( "start_cell").data, ( "name").data, ( "table_name").data]

/-- The `pre_file` key. -/
def preFileKey : Str := ( "pre_file").data

/-- `SqlFile.extractDefaultParameters` (values component): scan document
lines from the top; blank lines and comment lines are skipped; `--key: value`
lines set the key unless it is `pre_file` or non-inheritable; the first other
line stops the scan. -/
def extractDefaultParameters : List Str → Params → Params
  | [], acc => acc
  | l :: rest, acc =>
    let t := trim l
    if t.isEmpty then extractDefaultParameters rest acc
    else
      match matchParamLine t with
      | some (k, v) =>
        if k = preFileKey then extractDefaultParameters rest acc
        else if k ∈ nonInheritableDefaults then extractDefaultParameters rest acc
        else extractDefaultParameters rest (setParam acc k v)
      | none =>
        if t.take 2 == dashDash then extractDefaultParameters rest acc
        else acc

/-- The destination loop of `SqlFile.parse` over the header lines of a block:
separator lines push the current directive set and restart from a copy of the
defaults; `--key: value` lines (except `pre_file`) override the current set;
the current set is pushed at the end. -/
def buildDestinationsAux (defaults : Params) : List Str → Params → List Params
  | [], current => [current]
  | l :: rest, current =>
    if isSeparatorLine (trim l) then
      current :: buildDestinationsAux defaults rest defaults
    else
      match matchParamLine l with
      | some (k, v) =>
        if k = preFileKey then buildDestinationsAux defaults rest current
        else buildDestinationsAux defaults rest (setParam current k v)
      | none => buildDestinationsAux defaults rest current

/-- The destination directive sets of one query block (`SqlFile.parse`
lines 180-232): a block with no header lines gets exactly one destination
seeded from the defaults. -/
def parseBlockDestinationParams (defaults : Params) (blockLines : List Str) : List Params :=
  let hl := headerLinesOf blockLines
  if hl.isEmpty then [defaults]
  else buildDestinationsAux defaults hl defaults

/-! ## Directive rewriter
(`SqlSheetsExportViewModel._updateStartCellParameterForDestination`) -/

/-- The upload result consumed by the rewriter (the fields the view model
reads from `SheetUploadResult`). -/
structure ViewUploadResult where
  startCell : Option Str := none
  startNamedRange : Option Str := none
  sheetId : Option Nat := none
  sheetName : Option Str := none
  deriving DecidableEq, Repr

/-- A document edit produced by the rewriter. -/
inductive RewriteEdit where
  | startCellEdit (value : Str)
  | sheetNameEdit (value : Str)
  deriving DecidableEq, Repr

/-- `_updateStartCellParameterForDestination`
(src/src/viewmodels/SqlSheetsExportViewModel.ts 347-431), reduced to the list
of edits it applies.  The re-parse of the source document is abstracted by
the `matchingQueryFound`/`targetDestinationFound` flags, and the
`parameterRanges` lookups of a secondary destination by the two
`...RangeRecorded` flags. -/
def updateStartCellParameterForDestination
    (destination : Option SqlSheetConfiguration) (res : ViewUploadResult)
    (matchingQueryFound targetDestinationFound : Bool) (destinationIndex : Nat)
    (startCellRangeRecorded sheetNameRangeRecorded : Bool) : List RewriteEdit :=
  match destination with
  | none => []
  | some cfg =>
    match res.startNamedRange <|> cfg.start_named_range with
    | none => []
    | some nr =>
      let newCombinedValue := formatStartCellParameter (some nr) res.startCell
      let existingCombinedValue :=
        formatStartCellParameter cfg.start_named_range cfg.start_cell
      if !matchingQueryFound then []
      else if !targetDestinationFound then []
      else
        let startCellEdits :=
          if newCombinedValue ≠ existingCombinedValue then
            if destinationIndex = 0 then [RewriteEdit.startCellEdit newCombinedValue]
            else if startCellRangeRecorded then [RewriteEdit.startCellEdit newCombinedValue]
            else []
          else []
        let newSheetParameter :=
          formatSheetNameParameter (res.sheetId <|> cfg.sheet_id)
            (res.sheetName <|> cfg.sheet_name)
        let existingSheetParameter :=
          formatSheetNameParameter cfg.sheet_id cfg.sheet_name
        let sheetEdits :=
          if newSheetParameter ≠ existingSheetParameter ∧ newSheetParameter ≠ [] then
            if destinationIndex = 0 then [RewriteEdit.sheetNameEdit newSheetParameter]
            else if sheetNameRangeRecorded then [RewriteEdit.sheetNameEdit newSheetParameter]
            else []
          else []
        startCellEdits ++ sheetEdits

/-! ## Pre-file execution (`SqlSheetsExportViewModel._executePreFile`) -/

/-- A pre-file path (already resolved/normalised in the model). -/
abbrev Path := Str

/-- The relevant content of a pre-file: its `--pre_file:` directives and
whether it is actually executed in the warehouse (`false` models the empty
and SELECT-only skip branches, which still mark the file as executed). -/
structure PreFile where
  nested : List Path
  shouldExecute : Bool
  deriving DecidableEq, Repr

/-- The accessible files (path to content); a missing path models the
`fs.access` failure. -/
abbrev FileSystem := List (Path × PreFile)

/-- File lookup. -/
def lookupFile (fs : FileSystem) (p : Path) : Option PreFile :=
  match fs.find? (fun e => e.1 == p) with
  | some e => some e.2
  | none => none

/-- Failures of the pre-file chain.  `outOfFuel` is never returned for a
sufficiently large fuel (see `execPreFile_ne_outOfFuel` uses below). -/
inductive PreFileError where
  | circular (p : Path)
  | notFound (p : Path)
  | outOfFuel
  deriving DecidableEq, Repr

/-- `_runPreFilesRecursive`: run `step` on each path in order, threading the
executed set and concatenating the execution traces. -/
def runEach (step : Path → List Path → Except PreFileError (List Path × List Path)) :
    List Path → List Path → Except PreFileError (List Path × List Path)
  | [], executed => Except.ok (executed, [])
  | p :: rest, executed => do
    let (e1, t1) ← step p executed
    let (e2, t2) ← runEach step rest e1
    Except.ok (e2, t1 ++ t2)

/-- `_executePreFile` (src/src/viewmodels/SqlSheetsExportViewModel.ts
507-578), fuelled.  Returns the updated executed set and the trace of
warehouse executions.  An already-executed path returns immediately; a path
still being processed raises the circular-dependency error; otherwise the
path is marked as processing, its nested pre-files run first, and the file
itself is executed (or skipped but still marked executed).  The warehouse
service is assumed configured and its execution successful. -/
def execPreFile (fs : FileSystem) : Nat → Path → List Path → List Path →
    Except PreFileError (List Path × List Path)
  | 0, _, _, _ => Except.error PreFileError.outOfFuel
  | fuel + 1, p, executed, processing =>
    if p ∈ executed then Except.ok (executed, [])
    else if p ∈ processing then Except.error (PreFileError.circular p)
    else
      match lookupFile fs p with
      | none => Except.error (PreFileError.notFound p)
      | some f => do
        let (e1, t1) ←
          runEach (fun q e => execPreFile fs fuel q e (p :: processing)) f.nested executed
        if f.shouldExecute then Except.ok (p :: e1, t1 ++ [p])
        else Except.ok (p :: e1, t1)

/-- `runPreFiles`: the top-level entry with an empty processing set. -/
def runPreFiles (fs : FileSystem) (fuel : Nat) (preFiles : List Path)
    (executedPreFiles : List Path) : Except PreFileError (List Path × List Path) :=
  runEach (fun q e => execPreFile fs fuel q e []) preFiles executedPreFiles

/-! ## Arithmetic facts about the fuelled helpers -/

theorem natToStrAux_congr : ∀ f₁ f₂ n, n < f₁ → n < f₂ → natToStrAux f₁ n = natToStrAux f₂ n := by
  intro f₁
  induction f₁ with
  | zero => intro f₂ n h; omega
  | succ f ih =>
    intro f₂ n h₁ h₂
    match f₂, h₂ with
    | f₂ + 1, _ =>
      simp only [natToStrAux]
      by_cases hn : n < 10
      · simp [hn]
      · have hdiv : n / 10 < n := Nat.div_lt_self (by omega) (by omega)
        simp only [hn, if_false]
        rw [ih f₂ (n / 10) (by omega) (by omega)]

theorem natToStr_unfold (n : Nat) :
    natToStr n = if n < 10 then [digitChar n] else natToStr (n / 10) ++ [digitChar (n % 10)] := by
  by_cases hn : n < 10
  · simp [natToStr, natToStrAux, hn]
  · have hdiv : n / 10 < n := Nat.div_lt_self (by omega) (by omega)
    simp only [hn, if_false]
    show natToStrAux (n + 1) n = _
    simp only [natToStrAux, hn, if_false]
    congr 1
    exact natToStrAux_congr n (n / 10 + 1) (n / 10) (by omega) (by omega)

theorem digitChar_toNat : ∀ d, d < 10 → (digitChar d).toNat = 48 + d := by decide

theorem digitChar_mem : ∀ d, d < 10 → digitChar d ∈ ( "0123456789").data := by decide

theorem natToStr_chars (n : Nat) : ∀ c ∈ natToStr n, c ∈ ( "0123456789").data := by
  induction n using Nat.strong_induction_on with
  | _ n ih =>
    rw [natToStr_unfold]
    by_cases hn : n < 10
    · simp only [hn, if_true, List.mem_singleton]
      intro c hc; subst hc; exact digitChar_mem n hn
    · have hdiv : n / 10 < n := Nat.div_lt_self (by omega) (by omega)
      simp only [hn, if_false, List.mem_append, List.mem_singleton]
      intro c hc
      rcases hc with hc | hc
      · exact ih (n / 10) hdiv c hc
      · subst hc; exact digitChar_mem (n % 10) (Nat.mod_lt n (by omega))

theorem natToStr_ne_nil (n : Nat) : natToStr n ≠ [] := by
  rw [natToStr_unfold]
  by_cases hn : n < 10 <;> simp [hn]

theorem strToNat_append_digit (a : Str) (c : Char) :
    strToNat (a ++ [c]) = strToNat a * 10 + (c.toNat - 48) := by
  simp [strToNat, List.foldl_append]

theorem strToNat_natToStr (n : Nat) : strToNat (natToStr n) = n := by
  induction n using Nat.strong_induction_on with
  | _ n ih =>
    rw [natToStr_unfold]
    by_cases hn : n < 10
    · simp only [hn, if_true]
      have : strToNat [digitChar n] = (digitChar n).toNat - 48 := by simp [strToNat]
      rw [this, digitChar_toNat n hn]; omega
    · have hdiv : n / 10 < n := Nat.div_lt_self (by omega) (by omega)
      simp only [hn, if_false, strToNat_append_digit]
      rw [ih (n / 10) hdiv, digitChar_toNat (n % 10) (Nat.mod_lt n (by omega))]
      omega

theorem numToColAux_congr : ∀ f₁ f₂ v, v ≤ f₁ → v ≤ f₂ → numToColAux f₁ v = numToColAux f₂ v := by
  intro f₁
  induction f₁ with
  | zero =>
    intro f₂ v h₁ h₂
    have : v = 0 := by omega
    subst this
    match f₂ with
    | 0 => rfl
    | f + 1 => simp [numToColAux]
  | succ f ih =>
    intro f₂ v h₁ h₂
    by_cases hv : v = 0
    · subst hv
      match f₂ with
      | 0 => rfl
      | g + 1 => simp [numToColAux]
    · match f₂ with
      | 0 => omega
      | g + 1 =>
        simp only [numToColAux, hv, if_false]
        have hd : (v - 1) / 26 ≤ v - 1 := Nat.div_le_self _ _
        rw [ih g ((v - 1) / 26) (by omega) (by omega)]

theorem numToCol_unfold (v : Nat) :
    numToCol v = if v = 0 then [] else numToCol ((v - 1) / 26) ++ [letterChar ((v - 1) % 26)] := by
  by_cases hv : v = 0
  · subst hv; simp [numToCol, numToColAux]
  · match v, hv with
    | v + 1, _ =>
      show numToColAux (v + 1) (v + 1) = _
      have h0 : ¬ (v + 1 = 0) := by omega
      simp only [numToColAux, h0, if_false]
      congr 1
      show numToColAux v ((v + 1 - 1) / 26) = numToCol ((v + 1 - 1) / 26)
      have he : v + 1 - 1 = v := by omega
      rw [he]
      exact numToColAux_congr v (v / 26) (v / 26) (Nat.div_le_self _ _) (le_refl _)

theorem letterChar_toNat : ∀ r, r < 26 → (letterChar r).toNat = 65 + r := by decide

theorem colVal_append (l : Str) (c : Char) :
    colVal (l ++ [c]) = colVal l * 26 + (c.toNat - 64) := by
  simp [colVal, List.foldl_append]

/-- A canonical column string: non-empty, capital letters only. -/
def IsColumnStr (l : Str) : Prop := l ≠ [] ∧ ∀ c ∈ l, 65 ≤ c.toNat ∧ c.toNat ≤ 90

theorem colVal_pos (l : Str) (h : IsColumnStr l) : 1 ≤ colVal l := by
  obtain ⟨hne, hmem⟩ := h
  induction l using List.reverseRecOn with
  | nil => exact absurd rfl hne
  | append_singleton t a ih =>
    rw [colVal_append]
    have := hmem a (by simp)
    omega

theorem char_eq_of_toNat_eq {a b : Char} (h : a.toNat = b.toNat) : a = b := by
  apply Char.ext
  exact UInt32.ext h

theorem letterChar_of_char (a : Char) (h₁ : 65 ≤ a.toNat) (h₂ : a.toNat ≤ 90) :
    letterChar (a.toNat - 65) = a := by
  apply char_eq_of_toNat_eq
  rw [letterChar_toNat (a.toNat - 65) (by omega)]
  omega

/-- Round trip: converting the base-26 value of a canonical column string back
to letters yields the same string. -/
theorem numToCol_colVal (l : Str) (h : IsColumnStr l) : numToCol (colVal l) = l := by
  obtain ⟨hne, hmem⟩ := h
  induction l using List.reverseRecOn with
  | nil => exact absurd rfl hne
  | append_singleton t a ih =>
    rw [colVal_append]
    have ha := hmem a (by simp)
    by_cases ht : t = []
    · subst ht
      rw [numToCol_unfold]
      have hd : 1 ≤ a.toNat - 64 ∧ a.toNat - 64 ≤ 26 := by omega
      simp only [colVal, List.foldl_nil, Nat.zero_mul, Nat.zero_add]
      have hne0 : a.toNat - 64 ≠ 0 := by omega
      simp only [hne0, if_false]
      have h26 : (a.toNat - 64 - 1) / 26 = 0 := Nat.div_eq_of_lt (by omega)
      have hmod : (a.toNat - 64 - 1) % 26 = a.toNat - 65 := Nat.mod_eq_of_lt (by omega)
      rw [h26, hmod, numToCol_unfold]
      simp [letterChar_of_char a (by omega) (by omega)]
    · have hmem' : ∀ c ∈ t, 65 ≤ c.toNat ∧ c.toNat ≤ 90 := by
        intro c hc; exact hmem c (by simp [hc])
      have hpos : 1 ≤ colVal t := colVal_pos t ⟨ht, hmem'⟩
      have hd : 1 ≤ a.toNat - 64 ∧ a.toNat - 64 ≤ 26 := by omega
      rw [numToCol_unfold]
      have hv : colVal t * 26 + (a.toNat - 64) ≠ 0 := by omega
      simp only [hv, if_false]
      have harg : colVal t * 26 + (a.toNat - 64) - 1 = (a.toNat - 64 - 1) + colVal t * 26 := by
        omega
      rw [harg, Nat.add_mul_div_right _ _ (by omega : (0 : Nat) < 26),
        Nat.div_eq_of_lt (by omega), Nat.add_mul_mod_self_right _ _ 26,
        Nat.mod_eq_of_lt (by omega)]
      rw [Nat.zero_add, ih ht hmem']
      have he2 : a.toNat - 64 - 1 = a.toNat - 65 := by omega
      rw [he2, letterChar_of_char a (by omega) (by omega)]

/-- C9: `incrementColumn` implements base-26 column advancement —
`incrementColumn("A", 25) = "Z"`, `incrementColumn("Z", 1) = "AA"`, and
`incrementColumn("AZ", 1) = "BA"`. -/
theorem incrementColumn_examples :
    incrementColumn (( "A").data) 25 = ( "Z").data
    ∧ incrementColumn (( "Z").data) 1 = ( "AA").data
    ∧ incrementColumn (( "AZ").data) 1 = ( "BA").data := by decide

/-! ## String lemmas about `trim` and pipe splitting -/

theorem dropWhile_cons_false {p : Char → Bool} {a : Char} {l : Str} (h : p a = false) :
    (a :: l).dropWhile p = a :: l := by
  simp [List.dropWhile_cons, h]

theorem head_not_ws_of_dropLeading {a : Char} {t : Str}
    (h : dropLeading (a :: t) = a :: t) : a.isWhitespace = false := by
  by_cases hw : a.isWhitespace
  · exfalso
    have h1 : dropLeading (a :: t) = dropLeading t := by
      simp [dropLeading, List.dropWhile_cons, hw]
    have h2 : (dropLeading t).length ≤ t.length := (List.dropWhile_sublist _).length_le
    rw [h1] at h
    have := congrArg List.length h
    simp at this
    omega
  · simpa using hw

theorem dropLeading_length_le (l : Str) : (dropLeading l).length ≤ l.length :=
  (List.dropWhile_sublist _).length_le

theorem dropTrailing_length_le (l : Str) : (dropTrailing l).length ≤ l.length := by
  have h : (l.reverse.dropWhile Char.isWhitespace).length ≤ l.reverse.length :=
    (List.dropWhile_sublist _).length_le
  simp only [List.length_reverse] at h
  simpa [dropTrailing] using h

theorem dropWhile_eq_self_of_length {p : Char → Bool} {l : Str}
    (h : (l.dropWhile p).length = l.length) : l.dropWhile p = l := by
  cases l with
  | nil => rfl
  | cons a t =>
    by_cases hp : p a
    · exfalso
      have h1 : (a :: t).dropWhile p = t.dropWhile p := by simp [List.dropWhile_cons, hp]
      have h2 : (t.dropWhile p).length ≤ t.length := (List.dropWhile_sublist _).length_le
      rw [h1] at h
      simp at h
      omega
    · simp [List.dropWhile_cons, hp]

theorem trim_eq_self_iff {l : Str} : trim l = l ↔ dropLeading l = l ∧ dropTrailing l = l := by
  constructor
  · intro h
    have hlen1 : (dropLeading l).length ≤ l.length := dropLeading_length_le l
    have hlen2 : (dropTrailing (dropLeading l)).length ≤ (dropLeading l).length :=
      dropTrailing_length_le _
    have hlen3 : (trim l).length = l.length := by rw [h]
    have hlenL : (dropLeading l).length = l.length := by
      have : (trim l).length ≤ (dropLeading l).length := hlen2
      omega
    have hL : dropLeading l = l := dropWhile_eq_self_of_length hlenL
    refine ⟨hL, ?_⟩
    have : trim l = dropTrailing l := by rw [trim, hL]
    rw [← this, h]
  · rintro ⟨h1, h2⟩
    rw [trim, h1, h2]

theorem dropTrailing_eq_self_iff {l : Str} :
    dropTrailing l = l ↔ dropLeading l.reverse = l.reverse := by
  constructor
  · intro h
    have := congrArg List.reverse h
    simpa [dropTrailing, dropLeading] using this
  · intro h
    have := congrArg List.reverse h
    simp only [List.reverse_reverse] at this
    simpa [dropTrailing, dropLeading] using this

theorem trimmed_head_cons {r : Str} (h : trim r = r) (hne : r ≠ []) :
    ∃ a t, r = a :: t ∧ a.isWhitespace = false := by
  obtain ⟨hL, _⟩ := trim_eq_self_iff.mp h
  cases r with
  | nil => exact absurd rfl hne
  | cons a t => exact ⟨a, t, rfl, head_not_ws_of_dropLeading hL⟩

theorem dropLeading_append_of_trimmed {r : Str} (h : trim r = r) (hne : r ≠ []) (x : Str) :
    dropLeading (r ++ x) = r ++ x := by
  obtain ⟨a, t, rfl, ha⟩ := trimmed_head_cons h hne
  exact dropWhile_cons_false ha

theorem dropTrailing_append_of_trimmed {c : Str} (h : trim c = c) (hne : c ≠ []) (x : Str) :
    dropTrailing (x ++ c) = x ++ c := by
  obtain ⟨_, hT⟩ := trim_eq_self_iff.mp h
  have hrev : dropLeading c.reverse = c.reverse := dropTrailing_eq_self_iff.mp hT
  have hrne : c.reverse ≠ [] := by simpa using hne
  rw [dropTrailing_eq_self_iff]
  rw [List.reverse_append]
  cases hc : c.reverse with
  | nil => exact absurd hc hrne
  | cons b t' =>
    rw [hc] at hrev
    have hb := head_not_ws_of_dropLeading hrev
    exact dropWhile_cons_false hb

theorem trim_append_of_trimmed {r c : Str} (hr : trim r = r) (hrne : r ≠ [])
    (hc : trim c = c) (hcne : c ≠ []) (mid : Str) :
    trim (r ++ mid ++ c) = r ++ mid ++ c := by
  rw [trim_eq_self_iff]
  constructor
  · have := dropLeading_append_of_trimmed hr hrne (mid ++ c)
    simpa [List.append_assoc] using this
  · exact dropTrailing_append_of_trimmed hc hcne (r ++ mid)

theorem trim_append_space {r : Str} (hr : trim r = r) (hne : r ≠ []) :
    trim (r ++ [ ' ' ]) = r := by
  obtain ⟨hL, hT⟩ := trim_eq_self_iff.mp hr
  have hrev : dropLeading r.reverse = r.reverse := dropTrailing_eq_self_iff.mp hT
  rw [trim, dropLeading_append_of_trimmed hr hne [ ' ' ]]
  have h1 : (r ++ [ ' ' ]).reverse = ( ' ' ) :: r.reverse := by simp
  have hsp : (( ' ' : Char)).isWhitespace = true := by decide
  rw [dropTrailing, h1]
  have h3 : (( ' ' ) :: r.reverse).dropWhile Char.isWhitespace
      = r.reverse.dropWhile Char.isWhitespace := by
    simp [List.dropWhile_cons, hsp]
  rw [h3]
  have h4 : r.reverse.dropWhile Char.isWhitespace = r.reverse := hrev
  rw [h4, List.reverse_reverse]

theorem trim_space_cons {c : Str} (hc : trim c = c) :
    trim (( ' ' ) :: c) = c := by
  obtain ⟨hL, hT⟩ := trim_eq_self_iff.mp hc
  have h1 : dropLeading (( ' ' ) :: c) = dropLeading c := by
    simp [dropLeading, List.dropWhile_cons]
  rw [trim, h1, hL, hT]

theorem takeWhile_ne_append {sep : Char} (r rest : Str) (hr : sep ∉ r) :
    (r ++ sep :: rest).takeWhile (fun c => c ≠ sep) = r := by
  induction r with
  | nil => simp [List.takeWhile_cons]
  | cons a t ih =>
    have ha : a ≠ sep := fun h => hr (h ▸ List.mem_cons_self a t)
    have ht : sep ∉ t := fun h => hr (List.mem_cons_of_mem a h)
    simp only [List.cons_append, List.takeWhile_cons]
    simp only [ha, decide_not, decide_eq_false_iff_not, ne_eq, not_false_iff, Bool.not_false,
      if_true, List.cons.injEq, true_and]
    simpa using ih ht

theorem dropWhile_ne_append {sep : Char} (r rest : Str) (hr : sep ∉ r) :
    (r ++ sep :: rest).dropWhile (fun c => c ≠ sep) = sep :: rest := by
  induction r with
  | nil => simp [List.dropWhile_cons]
  | cons a t ih =>
    have ha : a ≠ sep := fun h => hr (h ▸ List.mem_cons_self a t)
    have ht : sep ∉ t := fun h => hr (List.mem_cons_of_mem a h)
    simp only [List.cons_append, List.dropWhile_cons]
    simp only [ha, decide_not, decide_eq_false_iff_not, ne_eq, not_false_iff, Bool.not_false,
      if_true]
    simpa using ih ht

theorem beforeFirst_append {sep : Char} (r rest : Str) (hr : sep ∉ r) :
    beforeFirst sep (r ++ sep :: rest) = r :=
  takeWhile_ne_append r rest hr

theorem afterFirst_append {sep : Char} (r rest : Str) (hr : sep ∉ r) :
    afterFirst sep (r ++ sep :: rest) = rest := by
  rw [afterFirst, dropWhile_ne_append r rest hr, List.tail_cons]

theorem contains_append_self (r rest : Str) (sep : Char) :
    (r ++ sep :: rest).contains sep = true :=
  List.elem_eq_true_of_mem (by simp)

theorem dropWhile_eq_self_of_all_false {p : Char → Bool} {l : Str}
    (h : ∀ c ∈ l, p c = false) : l.dropWhile p = l := by
  induction l with
  | nil => rfl
  | cons a t ih =>
    have := h a (List.mem_cons_self a t)
    simp [List.dropWhile_cons, this, ih fun c hc => h c (List.mem_cons_of_mem a hc)]

theorem trim_eq_self_of_all_not_ws {l : Str} (h : ∀ c ∈ l, c.isWhitespace = false) :
    trim l = l := by
  rw [trim_eq_self_iff]
  refine ⟨dropWhile_eq_self_of_all_false h, ?_⟩
  rw [dropTrailing_eq_self_iff]
  exact dropWhile_eq_self_of_all_false fun c hc => h c (List.mem_reverse.mp hc)

theorem digitStr_facts :
    ∀ c ∈ ( "0123456789").data, c.isWhitespace = false ∧ c ≠ ( '|' ) ∧ c.isDigit = true := by
  decide

theorem natToStr_trimmed (n : Nat) : trim (natToStr n) = natToStr n :=
  trim_eq_self_of_all_not_ws fun c hc => (digitStr_facts c (natToStr_chars n c hc)).1

theorem natToStr_no_pipe (n : Nat) : ( '|' ) ∉ natToStr n := fun h =>
  (digitStr_facts _ (natToStr_chars n _ h)).2.1 rfl

theorem isAllDigits_natToStr (n : Nat) : isAllDigits (natToStr n) = true := by
  have h1 : natToStr n ≠ [] := natToStr_ne_nil n
  have h2 : (natToStr n).all Char.isDigit = true :=
    List.all_eq_true.mpr fun c hc => (digitStr_facts c (natToStr_chars n c hc)).2.2
  simp [isAllDigits, h2, h1]

/-! ## Round trips of the combined-parameter format/parse pairs (C3) -/

theorem sep_data_eq : ( " | ").data = [ ' ' ] ++ ( '|' ) :: ( ' ' ) :: ([] : Str) := by decide

theorem append_sep_assoc (r c : Str) :
    r ++ ( " | ").data ++ c = (r ++ [ ' ' ]) ++ ( '|' ) :: (( ' ' ) :: c) := by
  rw [sep_data_eq]
  simp [List.append_assoc]

theorem no_pipe_append_space {r : Str} (hr : ( '|' ) ∉ r) : ( '|' ) ∉ r ++ [ ' ' ] := by
  intro h
  rcases List.mem_append.mp h with h | h
  · exact hr h
  · simp at h

theorem splitPipe_before {r c : Str} (hr1 : trim r = r) (hr2 : r ≠ []) (hr3 : ( '|' ) ∉ r) :
    trim (beforeFirst ( '|' ) (r ++ ( " | ").data ++ c)) = r := by
  rw [append_sep_assoc, beforeFirst_append _ _ (no_pipe_append_space hr3)]
  exact trim_append_space hr1 hr2

theorem splitPipe_after {r c : Str} (hr3 : ( '|' ) ∉ r) (hc1 : trim c = c) :
    trim (afterFirst ( '|' ) (r ++ ( " | ").data ++ c)) = c := by
  rw [append_sep_assoc, afterFirst_append _ _ (no_pipe_append_space hr3)]
  exact trim_space_cons hc1

theorem combined_ne_nil {r : Str} (c : Str) (hr2 : r ≠ []) : r ++ ( " | ").data ++ c ≠ [] := by
  cases r with
  | nil => exact absurd rfl hr2
  | cons a t => simp

theorem combined_contains_pipe (r c : Str) :
    (r ++ ( " | ").data ++ c).contains ( '|' ) = true := by
  rw [append_sep_assoc]
  exact contains_append_self _ _ _

theorem combined_trimmed {r c : Str} (hr1 : trim r = r) (hr2 : r ≠ [])
    (hc1 : trim c = c) (hc2 : c ≠ []) :
    trim (r ++ ( " | ").data ++ c) = r ++ ( " | ").data ++ c :=
  trim_append_of_trimmed hr1 hr2 hc1 hc2 _

theorem parseStart_append_sep {r c : Str} (hr1 : trim r = r) (hr2 : r ≠ [])
    (hr3 : ( '|' ) ∉ r) (hc1 : trim c = c) (hc2 : c ≠ []) :
    parseStartCellParameter (some (r ++ ( " | ").data ++ c)) = ⟨some c, some r⟩ := by
  have hne := combined_ne_nil c hr2
  have htrim := combined_trimmed hr1 hr2 hc1 hc2
  simp only [parseStartCellParameter, hne, if_neg hne, htrim, combined_contains_pipe,
    Bool.not_true, Bool.false_eq_true, if_false, splitPipe_before hr1 hr2 hr3,
    splitPipe_after hr3 hc1]
  simp [hr2, hc2]

theorem parseSpreadsheet_append_sep {r c : Str} (hr1 : trim r = r) (hr2 : r ≠ [])
    (hr3 : ( '|' ) ∉ r) (hc1 : trim c = c) (hc2 : c ≠ []) :
    parseSpreadsheetIdParameter (some (r ++ ( " | ").data ++ c)) = ⟨some r, some c⟩ := by
  have hne := combined_ne_nil c hr2
  have htrim := combined_trimmed hr1 hr2 hc1 hc2
  simp only [parseSpreadsheetIdParameter, hne, if_neg hne, htrim, combined_contains_pipe,
    Bool.not_true, Bool.false_eq_true, if_false, splitPipe_before hr1 hr2 hr3,
    splitPipe_after hr3 hc1]
  simp [hr2, hc2]

theorem parseSheet_append_sep {n : Nat} {c : Str} (hc1 : trim c = c) (hc2 : c ≠ []) :
    parseSheetNameParameter (some (natToStr n ++ ( " | ").data ++ c))
      = ⟨some n, some c⟩ := by
  have hr1 := natToStr_trimmed n
  have hr2 := natToStr_ne_nil n
  have hr3 := natToStr_no_pipe n
  have hne := combined_ne_nil c hr2
  have htrim := combined_trimmed hr1 hr2 hc1 hc2
  simp only [parseSheetNameParameter, hne, if_neg hne, htrim, combined_contains_pipe,
    Bool.not_true, Bool.false_eq_true, if_false, splitPipe_before hr1 hr2 hr3,
    splitPipe_after hr3 hc1]
  simp [hr2, hc2, isAllDigits_natToStr n, strToNat_natToStr n]

theorem format_both_nonempty {r c : Str} (hr1 : trim r = r) (hr2 : r ≠ [])
    (hc1 : trim c = c) (hc2 : c ≠ []) :
    formatStartCellParameter (some r) (some c) = r ++ ( " | ").data ++ c := by
  simp only [formatStartCellParameter, hr1, hc1]
  rw [if_pos ⟨hr2, hc2⟩]

theorem formatSpreadsheet_both_nonempty {r c : Str} (hr1 : trim r = r) (hr2 : r ≠ [])
    (hc1 : trim c = c) (hc2 : c ≠ []) :
    formatSpreadsheetIdParameter (some r) (some c) = r ++ ( " | ").data ++ c := by
  simp only [formatSpreadsheetIdParameter, hr1, hc1]
  rw [if_pos ⟨hr2, hc2⟩]

theorem formatSheet_both_nonempty {n : Nat} {c : Str} (hc1 : trim c = c) (hc2 : c ≠ []) :
    formatSheetNameParameter (some n) (some c) = natToStr n ++ ( " | ").data ++ c := by
  simp only [formatSheetNameParameter, hc1]
  rw [if_pos ⟨natToStr_ne_nil n, hc2⟩]

/-- C3, counterexample: for the non-empty trimmed pair
(range `A|B`, cell `C1`) — the named range containing a pipe — the
format/parse round trip does not return the pair: parsing splits at the first
pipe, giving named range `A` and cell `B | C1`. -/
theorem startCell_roundTrip_counterexample :
    trim (( "A|B").data) = ( "A|B").data ∧ ( "A|B").data ≠ ([] : Str)
    ∧ trim (( "C1").data) = ( "C1").data ∧ ( "C1").data ≠ ([] : Str)
    ∧ parseStartCellParameter
        (some (formatStartCellParameter (some (( "A|B").data)) (some (( "C1").data))))
      ≠ ⟨some (( "C1").data), some (( "A|B").data)⟩ := by decide

/-- C3 (amended): the format/parse round trips hold for all non-empty trimmed
pairs provided the left component (named range, spreadsheet id) contains no
pipe character; the sheet-identifier pair needs no such condition because its
left component is numeric. -/
theorem parse_format_roundTrip :
    (∀ r c : Str, trim r = r → r ≠ [] → ( '|' ) ∉ r → trim c = c → c ≠ [] →
      parseStartCellParameter (some (formatStartCellParameter (some r) (some c)))
        = ⟨some c, some r⟩)
    ∧ (∀ i t : Str, trim i = i → i ≠ [] → ( '|' ) ∉ i → trim t = t → t ≠ [] →
      parseSpreadsheetIdParameter (some (formatSpreadsheetIdParameter (some i) (some t)))
        = ⟨some i, some t⟩)
    ∧ (∀ (n : Nat) (s : Str), trim s = s → s ≠ [] →
      parseSheetNameParameter (some (formatSheetNameParameter (some n) (some s)))
        = ⟨some n, some s⟩) := by
  refine ⟨?_, ?_, ?_⟩
  · intro r c hr1 hr2 hr3 hc1 hc2
    rw [format_both_nonempty hr1 hr2 hc1 hc2]
    exact parseStart_append_sep hr1 hr2 hr3 hc1 hc2
  · intro i t h1 h2 h3 h4 h5
    rw [formatSpreadsheet_both_nonempty h1 h2 h4 h5]
    exact parseSpreadsheet_append_sep h1 h2 h3 h4 h5
  · intro n s h1 h2
    rw [formatSheet_both_nonempty h1 h2]
    exact parseSheet_append_sep h1 h2

/-- Witness for `parse_format_roundTrip` at concrete pipe-free inputs. -/
theorem parse_format_roundTrip_witness :
    parseStartCellParameter
      (some (formatStartCellParameter (some (( "MyRange").data)) (some (( "B5").data))))
      = ⟨some (( "B5").data), some (( "MyRange").data)⟩
    ∧ parseSpreadsheetIdParameter
      (some (formatSpreadsheetIdParameter (some (( "abc123").data)) (some (( "Budget").data))))
      = ⟨some (( "abc123").data), some (( "Budget").data)⟩
    ∧ parseSheetNameParameter
      (some (formatSheetNameParameter (some 315704920) (some (( "Summary").data))))
      = ⟨some 315704920, some (( "Summary").data)⟩ :=
  ⟨parse_format_roundTrip.1 (( "MyRange").data) (( "B5").data)
      (by decide) (by decide) (by decide) (by decide) (by decide),
    parse_format_roundTrip.2.1 (( "abc123").data) (( "Budget").data)
      (by decide) (by decide) (by decide) (by decide) (by decide),
    parse_format_roundTrip.2.2 315704920 (( "Summary").data) (by decide) (by decide)⟩

/-! ## Character-class facts and regex characterisations (C4) -/

theorem char_isDigit_not_isAlpha {c : Char} (h : c.isDigit = true) : c.isAlpha = false := by
  simp only [Char.isDigit, Bool.and_eq_true, decide_eq_true_eq, ge_iff_le] at h
  obtain ⟨h1, h2⟩ := h
  have h1' : 48 ≤ c.val.toNat := h1
  have h2' : c.val.toNat ≤ 57 := h2
  apply Bool.eq_false_iff.mpr
  intro ha
  simp only [Char.isAlpha, Char.isUpper, Char.isLower, Bool.or_eq_true, Bool.and_eq_true,
    decide_eq_true_eq, ge_iff_le] at ha
  rcases ha with ⟨ha1, _⟩ | ⟨ha1, _⟩
  · have hx : 65 ≤ c.val.toNat := ha1
    omega
  · have hx : 97 ≤ c.val.toNat := ha1
    omega

theorem char_isDigit_not_ws {c : Char} (h : c.isDigit = true) : c.isWhitespace = false := by
  by_cases hw : c.isWhitespace = true
  · simp only [Char.isWhitespace, Bool.or_eq_true, decide_eq_true_eq] at hw
    rcases hw with ((h1 | h1) | h1) | h1 <;> subst h1 <;>
      exact absurd h (by decide)
  · simpa using hw

theorem takeWhile_cons_false {p : Char → Bool} {a : Char} (l : Str) (h : p a = false) :
    (a :: l).takeWhile p = [] := by
  simp [List.takeWhile_cons, h]

theorem takeWhile_append_of_all {p : Char → Bool} {a : Str} (ha : ∀ c ∈ a, p c = true)
    (b : Str) : (a ++ b).takeWhile p = a ++ b.takeWhile p := by
  induction a with
  | nil => simp
  | cons x t ih =>
    have hx := ha x (List.mem_cons_self x t)
    simp only [List.cons_append, List.takeWhile_cons, hx, if_true]
    rw [ih fun c hc => ha c (List.mem_cons_of_mem x hc)]

theorem dropWhile_append_of_all {p : Char → Bool} {a : Str} (ha : ∀ c ∈ a, p c = true)
    (b : Str) : (a ++ b).dropWhile p = b.dropWhile p := by
  induction a with
  | nil => simp
  | cons x t ih =>
    have hx := ha x (List.mem_cons_self x t)
    simp only [List.cons_append, List.dropWhile_cons, hx, if_true]
    exact ih fun c hc => ha c (List.mem_cons_of_mem x hc)

/-- The language of the regex `^[A-Za-z]+[0-9]+$`: a non-empty alphabetic
prefix followed by a non-empty digit suffix. -/
def SpecCellRegex (t : Str) : Prop :=
  ∃ a b, t = a ++ b ∧ a ≠ [] ∧ b ≠ [] ∧ (∀ c ∈ a, c.isAlpha = true) ∧ ∀ c ∈ b, c.isDigit = true

/-- The language of the case-insensitive regex `^offset\s+\d+$`. -/
def SpecOffsetRegex (t : Str) : Prop :=
  ∃ o w d, t = o ++ w ++ d ∧ o.map Char.toLower = ( "offset").data ∧ w ≠ []
    ∧ (∀ c ∈ w, c.isWhitespace = true) ∧ d ≠ [] ∧ ∀ c ∈ d, c.isDigit = true

theorem looksLikeCellReference_iff {t : Str} (ht : trim t = t) :
    looksLikeCellReference t = true ↔ SpecCellRegex t := by
  unfold looksLikeCellReference
  rw [ht]
  constructor
  · intro h
    simp only [Bool.and_eq_true, Bool.not_eq_eq_eq_not, Bool.not_true, List.isEmpty_eq_false,
      List.all_eq_true] at h
    obtain ⟨⟨h1, h2⟩, h3⟩ := h
    exact ⟨t.takeWhile Char.isAlpha, t.dropWhile Char.isAlpha,
      (List.takeWhile_append_dropWhile Char.isAlpha t).symm, h1, h2,
      fun c hc => List.mem_takeWhile_imp hc, h3⟩
  · rintro ⟨a, b, rfl, ha, hb, halpha, hdigit⟩
    cases b with
    | nil => exact absurd rfl hb
    | cons d b' =>
      have hd : Char.isAlpha d = false :=
        char_isDigit_not_isAlpha (hdigit d (List.mem_cons_self d b'))
      show (!((a ++ d :: b').takeWhile Char.isAlpha).isEmpty
          && !((a ++ d :: b').dropWhile Char.isAlpha).isEmpty
          && ((a ++ d :: b').dropWhile Char.isAlpha).all Char.isDigit) = true
      rw [takeWhile_append_of_all halpha, dropWhile_append_of_all halpha,
        takeWhile_cons_false b' hd, dropWhile_cons_false hd]
      simp only [List.append_nil, Bool.and_eq_true, Bool.not_eq_eq_eq_not, Bool.not_true,
        List.isEmpty_eq_false, List.all_eq_true]
      exact ⟨⟨ha, by simp⟩, hdigit⟩

theorem looksLikeOffsetDirective_iff {t : Str} (ht : trim t = t) :
    looksLikeOffsetDirective t = true ↔ SpecOffsetRegex t := by
  unfold looksLikeOffsetDirective
  rw [ht]
  constructor
  · intro h
    simp only [Bool.and_eq_true, beq_iff_eq, Bool.not_eq_eq_eq_not, Bool.not_true,
      List.isEmpty_eq_false, List.all_eq_true] at h
    obtain ⟨⟨⟨h1, h2⟩, h3⟩, h4⟩ := h
    refine ⟨t.take 6, (t.drop 6).takeWhile Char.isWhitespace,
      (t.drop 6).dropWhile Char.isWhitespace, ?_, h1, h2,
      fun c hc => List.mem_takeWhile_imp hc, h3, h4⟩
    rw [List.append_assoc, List.takeWhile_append_dropWhile, List.take_append_drop]
  · rintro ⟨o, w, d, rfl, ho, hw, hws, hd, hdigit⟩
    have hlen : o.length = 6 := by
      have := congrArg List.length ho
      simpa using this
    cases d with
    | nil => exact absurd rfl hd
    | cons x d' =>
      have hx : Char.isWhitespace x = false :=
        char_isDigit_not_ws (hdigit x (List.mem_cons_self x d'))
      show ((((o ++ w ++ x :: d').take 6).map Char.toLower == ( "offset").data)
          && !(((o ++ w ++ x :: d').drop 6).takeWhile Char.isWhitespace).isEmpty
          && !(((o ++ w ++ x :: d').drop 6).dropWhile Char.isWhitespace).isEmpty
          && (((o ++ w ++ x :: d').drop 6).dropWhile Char.isWhitespace).all Char.isDigit)
          = true
      rw [List.append_assoc, ← hlen, List.take_left o (w ++ (x :: d')),
        List.drop_left o (w ++ (x :: d')),
        takeWhile_append_of_all hws, dropWhile_append_of_all hws,
        takeWhile_cons_false d' hx, dropWhile_cons_false hx]
      simp only [List.append_nil, Bool.and_eq_true, beq_iff_eq, Bool.not_eq_eq_eq_not,
        Bool.not_true, List.isEmpty_eq_false, List.all_eq_true]
      exact ⟨⟨⟨ho, hw⟩, by simp⟩, hdigit⟩

theorem dropWhile_idem {p : Char → Bool} {l : Str} :
    (l.dropWhile p).dropWhile p = l.dropWhile p := by
  induction l with
  | nil => rfl
  | cons a t ih =>
    by_cases hp : p a
    · simp [List.dropWhile_cons, hp, ih]
    · simp [List.dropWhile_cons, hp]

theorem dropLeading_idem {l : Str} : dropLeading (dropLeading l) = dropLeading l :=
  dropWhile_idem

theorem dropTrailing_idem {l : Str} : dropTrailing (dropTrailing l) = dropTrailing l := by
  simp only [dropTrailing, List.reverse_reverse]
  rw [dropWhile_idem]

theorem dropTrailing_prefix (m : Str) : ∃ u, m = dropTrailing m ++ u := by
  have hsuf : m.reverse.dropWhile Char.isWhitespace <:+ m.reverse :=
    List.dropWhile_suffix _
  obtain ⟨x, hx⟩ := hsuf
  refine ⟨x.reverse, ?_⟩
  have h2 := congrArg List.reverse hx
  simp only [List.reverse_append, List.reverse_reverse] at h2
  exact h2.symm

theorem dropLeading_prefix_of_self {m pre u : Str} (hm : dropLeading m = m)
    (hsplit : m = pre ++ u) : dropLeading pre = pre := by
  cases pre with
  | nil => rfl
  | cons b t =>
    have hb : b.isWhitespace = false := by
      rw [hsplit] at hm
      exact head_not_ws_of_dropLeading (by simpa using hm)
    exact dropWhile_cons_false hb

theorem trim_idem (l : Str) : trim (trim l) = trim l := by
  have hL : dropLeading (dropLeading l) = dropLeading l := dropLeading_idem
  obtain ⟨u, hu⟩ := dropTrailing_prefix (dropLeading l)
  have h1 : dropLeading (trim l) = trim l :=
    dropLeading_prefix_of_self hL hu
  have h2 : dropTrailing (trim l) = trim l := dropTrailing_idem
  rw [trim, h1, h2]

/-- C4, counterexample: on the all-whitespace input `" "` (no pipe, trimmed
value empty so matching neither regex) the parser returns neither field,
whereas the claim requires the trimmed value to come back as the named
range. -/
theorem parseStartCellParameter_spec_counterexample :
    ( '|' ) ∉ trim [ ' ' ]
    ∧ ¬ SpecCellRegex (trim [ ' ' ]) ∧ ¬ SpecOffsetRegex (trim [ ' ' ])
    ∧ parseStartCellParameter (some [ ' ' ]) ≠ ⟨none, some (trim [ ' ' ])⟩ := by
  have htr : trim [ ' ' ] = [] := by decide
  refine ⟨by decide, ?_, ?_, by decide⟩
  · rintro ⟨a, b, heq, ha, -, -, -⟩
    rw [htr] at heq
    exact ha (List.append_eq_nil.mp heq.symm).1
  · rintro ⟨o, w, d, heq, -, hw, -, -, -⟩
    rw [htr] at heq
    have h1 := List.append_eq_nil.mp heq.symm
    exact hw (List.append_eq_nil.mp h1.1).2

/-- C4 (amended): behaviour of `parseStartCellParameter` on every input.  An
input whose trimmed value is empty yields neither field.  With no pipe and a
non-empty trimmed value, the trimmed value is returned as the start cell
exactly when it is in the language of `^[A-Za-z]+[0-9]+$` or of the
case-insensitive `^offset\s+\d+$`, and otherwise as the named range.  With a
pipe, the trimmed left side (when non-empty) is always the named range and
the trimmed right side (when non-empty) is always the start cell, whether or
not it is cell-shaped. -/
theorem parseStartCellParameter_spec (s : Str) :
    (trim s = [] → parseStartCellParameter (some s) = ⟨none, none⟩)
    ∧ (trim s ≠ [] → ( '|' ) ∉ trim s →
        ((SpecCellRegex (trim s) ∨ SpecOffsetRegex (trim s)) →
          parseStartCellParameter (some s) = ⟨some (trim s), none⟩)
        ∧ (¬ SpecCellRegex (trim s) → ¬ SpecOffsetRegex (trim s) →
          parseStartCellParameter (some s) = ⟨none, some (trim s)⟩))
    ∧ (( '|' ) ∈ trim s →
        parseStartCellParameter (some s) =
          { startCell :=
              if trim (afterFirst ( '|' ) (trim s)) ≠ []
              then some (trim (afterFirst ( '|' ) (trim s))) else none
            startNamedRange :=
              if trim (beforeFirst ( '|' ) (trim s)) ≠ []
              then some (trim (beforeFirst ( '|' ) (trim s))) else none }) := by
  refine ⟨?_, ?_, ?_⟩
  · intro htr
    by_cases hs : s = []
    · subst hs; rfl
    · simp [parseStartCellParameter, hs, htr]
  · intro hne hpipe
    have hs : s ≠ [] := by
      intro h; subst h; exact hne rfl
    have hti := trim_idem s
    constructor
    · intro hmatch
      have hlook : (looksLikeCellReference (trim s)
          || looksLikeOffsetDirective (trim s)) = true := by
        rcases hmatch with h | h
        · simp [(looksLikeCellReference_iff hti).mpr h]
        · simp [(looksLikeOffsetDirective_iff hti).mpr h]
      simp [parseStartCellParameter, hs, hne, hpipe, hlook]
    · intro hn1 hn2
      have hlook1 : looksLikeCellReference (trim s) = false := by
        by_cases h : looksLikeCellReference (trim s) = true
        · exact absurd ((looksLikeCellReference_iff hti).mp h) hn1
        · simpa using h
      have hlook2 : looksLikeOffsetDirective (trim s) = false := by
        by_cases h : looksLikeOffsetDirective (trim s) = true
        · exact absurd ((looksLikeOffsetDirective_iff hti).mp h) hn2
        · simpa using h
      simp [parseStartCellParameter, hs, hne, hpipe, hlook1, hlook2]
  · intro hpipe
    have hne : trim s ≠ [] := by
      intro h; rw [h] at hpipe; exact absurd hpipe (List.not_mem_nil _)
    have hs : s ≠ [] := by
      intro h; subst h; exact hne rfl
    simp [parseStartCellParameter, hs, hne, hpipe]

/-- Witness for `parseStartCellParameter_spec`: the input `" B5 "` trims to
`B5`, which matches the cell regex and is returned as the start cell. -/
theorem parseStartCellParameter_spec_witness :
    parseStartCellParameter (some (( " B5 ").data)) = ⟨some (( "B5").data), none⟩ :=
  (parseStartCellParameter_spec (( " B5 ").data)).2.1 (by decide) (by decide)
    |>.1 (Or.inl ⟨( "B").data, ( "5").data, by decide, by decide, by decide,
      by decide, by decide⟩)

/-! ## The A1 range computation (C2) -/

instance isColumnStr_decidable (l : Str) : Decidable (IsColumnStr l) :=
  inferInstanceAs (Decidable (l ≠ [] ∧ ∀ c ∈ l, 65 ≤ c.toNat ∧ c.toNat ≤ 90))

theorem incrementColumn_advance {column : Str} (hcol : IsColumnStr column)
    {W : Nat} (hW : 1 ≤ W) :
    incrementColumn column ((W : Int) - 1) = numToCol (colVal column + (W - 1)) := by
  by_cases h1 : W = 1
  · subst h1
    have hz : (((1 : Nat) : Int) - 1) ≤ 0 := by simp
    rw [incrementColumn, if_pos hz]
    simpa using (numToCol_colVal column hcol).symm
  · have h2 : 2 ≤ W := by omega
    have hpos : ¬ (((W : Nat) : Int) - 1 ≤ 0) := by omega
    rw [incrementColumn, if_neg hpos]
    congr 1
    omega

/-- C2: for processed data of `R ≥ 1` rows and maximum row width `W ≥ 1`
starting at canonical column `c` and row `r`, the computed A1 range string is
`prefix!c r:endColumn endRow` where `endRow = r + R - 1` and `endColumn` is
the base-26 advancement of `c` by `W - 1` steps; the sheet-name portion is
used unquoted when purely numeric, and otherwise is wrapped in single quotes
with internal quotes doubled exactly when it contains a character outside
`[a-zA-Z0-9_]` or starts with a digit. -/
theorem computeRange_spec (sheetNameStr column : Str) (row : Nat)
    (processedData : List (List Cell)) (hcol : IsColumnStr column)
    (hR : 1 ≤ processedData.length) (hW : 1 ≤ dataMaxWidth processedData) :
    computeRange sheetNameStr column row processedData
      = rangeSheetQualifier sheetNameStr ++ [ '!' ] ++ column ++ natToStr row ++ [ ':' ]
        ++ numToCol (colVal column + (dataMaxWidth processedData - 1))
        ++ natToStr (row + processedData.length - 1)
    ∧ (isAllDigits sheetNameStr = true → rangeSheetQualifier sheetNameStr = sheetNameStr)
    ∧ (isAllDigits sheetNameStr = false →
        (((∃ c ∈ sheetNameStr, isWordChar c = false)
            ∨ ∃ c t, sheetNameStr = c :: t ∧ c.isDigit = true) →
          rangeSheetQualifier sheetNameStr
            = Char.ofNat 39 :: ((sheetNameStr.flatMap fun c =>
                if c = Char.ofNat 39 then [Char.ofNat 39, Char.ofNat 39] else [c])
              ++ [Char.ofNat 39]))
        ∧ ((¬ ∃ c ∈ sheetNameStr, isWordChar c = false) →
            (¬ ∃ c t, sheetNameStr = c :: t ∧ c.isDigit = true) →
          rangeSheetQualifier sheetNameStr = sheetNameStr)) := by
  refine ⟨?_, ?_, ?_⟩
  · rw [computeRange]
    rw [incrementColumn_advance hcol hW]
  · intro hnum
    unfold rangeSheetQualifier
    rw [if_pos hnum]
  · intro hnum
    constructor
    · intro hneed
      unfold rangeSheetQualifier
      rw [if_neg (by simp [hnum])]
      rw [if_pos ?side]
      · rw [List.cons_append]
      case side =>
        rcases hneed with ⟨c, hc, hword⟩ | ⟨c, t, rfl, hdig⟩
        · apply Bool.or_eq_true_iff.mpr
          left
          rw [List.any_eq_true]
          exact ⟨c, hc, by simp [hword]⟩
        · apply Bool.or_eq_true_iff.mpr
          right
          simpa using hdig
    · intro hn1 hn2
      unfold rangeSheetQualifier
      rw [if_neg (by simp [hnum])]
      rw [if_neg ?side2]
      case side2 =>
        intro hcond
        rcases Bool.or_eq_true_iff.mp hcond with h | h
        · rw [List.any_eq_true] at h
          obtain ⟨c, hc, hword⟩ := h
          exact hn1 ⟨c, hc, by simpa using hword⟩
        · cases sheetNameStr with
          | nil => simp at h
          | cons c t => exact hn2 ⟨c, t, rfl, by simpa using h⟩

/-- Witness for `computeRange_spec`: a one-cell upload at `A1` on sheet
`Sheet1` computes the range `Sheet1!A1:A1`. -/
theorem computeRange_spec_witness :
    computeRange (( "Sheet1").data) (( "A").data) 1 [[( "x").data]]
      = ( "Sheet1!A1:A1").data := by
  have h := (computeRange_spec (( "Sheet1").data) (( "A").data) 1 [[( "x").data]]
    (by decide) (by decide) (by decide)).1
  rw [h]
  decide

/-! ## Coverage of the clearing rectangle (C1) -/

/-- Cell `(r, c)` (1-based row, 0-based column) lies inside the cleared
rectangle. -/
def inClearRect (rect : ClearRect) (r c : Nat) : Prop :=
  rect.startRow ≤ r ∧ r ≤ rect.endRow ∧ rect.startColIndex ≤ c ∧ c ≤ rect.endColIndex

instance inClearRect_decidable (rect : ClearRect) (r c : Nat) :
    Decidable (inClearRect rect r c) :=
  inferInstanceAs (Decidable (_ ∧ _ ∧ _ ∧ _))

/-- C1, counterexample: the claimed coverage fails at two concrete inputs.
First, uploading a single cell at `A1` when the probe read returns no rows
clears nothing at all, so no cleared rectangle covers the cell the new data
will occupy.  Second, over a non-empty probe (one `x` cell), ragged new data
`[[], [a, b, c]]` of maximum width 3 gets its clear width from the first
row's width 0, so the cleared rectangle (columns 0-1 only) misses the cell
in column 2 of the first new-data row. -/
theorem clearContinuousRange_counterexample :
    (¬ ∃ rect, clearContinuousRange (( "A").data) 1 [[( "x").data]] [] = some rect
        ∧ inClearRect rect 1 0)
    ∧ ∃ rect,
        clearContinuousRange (( "A").data) 1
            [[], [( "a").data, ( "b").data, ( "c").data]] [[( "x").data]] = some rect
        ∧ 0 < ([[], [( "a").data, ( "b").data, ( "c").data]] : List (List Cell)).length
        ∧ 2 < dataMaxWidth [[], [( "a").data, ( "b").data, ( "c").data]]
        ∧ ¬ inClearRect rect (1 + 0) (columnToIndex (( "A").data) + 2) := by
  constructor
  · rintro ⟨rect, h, -⟩
    have hnone : clearContinuousRange (( "A").data) 1 [[( "x").data]] [] = none := rfl
    rw [hnone] at h
    exact Option.noConfusion h
  · exact ⟨⟨1, 3, 0, 1⟩, by decide, by decide, by decide, by decide⟩

/-- C1 (amended): when the probe read returns at least one row, a rectangle
is cleared that always covers the previous contiguous non-empty rectangle
anchored at the start cell (up to the last non-blank row and column
discovered from the probe), and covers the rectangle the new data will
occupy precisely when the new data's maximum row width is at most one more
than the larger of its first row's width and the probe's last non-blank
column count — which always holds for uniform-width data, in particular in
the 5-by-3-over-10-by-5 shrink case; when the probe returns no rows, nothing
is cleared at all. -/
theorem clearContinuousRange_covers (startColumn : Str) (startRow : Nat)
    (newData allValues : List (List Cell)) (hprev : allValues ≠ []) :
    ∃ rect, clearContinuousRange startColumn startRow newData allValues = some rect
      ∧ (∀ i j, i < lastDataRowOf allValues → j < lastDataColOf allValues →
          inClearRect rect (startRow + i) (columnToIndex startColumn + j))
      ∧ ((∀ i j, i < newData.length → j < dataMaxWidth newData →
            inClearRect rect (startRow + i) (columnToIndex startColumn + j))
          ↔ dataMaxWidth newData
              ≤ max (lastDataColOf allValues) (firstRowWidth newData) + 1) := by
  have hlen : allValues.length ≠ 0 := by
    intro h; exact hprev (List.length_eq_zero.mp h)
  refine ⟨⟨startRow,
      max (startRow + lastDataRowOf allValues) (startRow + newData.length),
      columnToIndex startColumn,
      max (columnToIndex startColumn + lastDataColOf allValues)
        (columnToIndex startColumn + firstRowWidth newData)⟩, ?_, ?_, ?_⟩
  · rw [clearContinuousRange]
    simp only [hlen, if_false]
  · intro i j hi hj
    dsimp only [inClearRect]
    omega
  · constructor
    · intro hcov
      by_cases hW : dataMaxWidth newData = 0
      · omega
      · have hR : 0 < newData.length := by
          cases newData with
          | nil => simp [dataMaxWidth] at hW
          | cons r t => simp
        have h1 := hcov 0 (dataMaxWidth newData - 1) hR (by omega)
        dsimp only [inClearRect] at h1
        omega
    · intro hle i j hi hj
      dsimp only [inClearRect]
      omega

/-- Witness for `clearContinuousRange_covers`: the shrink scenario of the
claim — a 5-row by 3-column upload at `A1` over a previous 10-row by
5-column footprint; the cleared rectangle covers the previous footprint, and
the width condition (3 ≤ max(5, 3) + 1) gives coverage of the new rectangle
too. -/
theorem clearContinuousRange_covers_witness :
    ∃ rect, clearContinuousRange (( "A").data) 1
        (List.replicate 5 (List.replicate 3 (( "y").data)))
        (List.replicate 10 (List.replicate 5 (( "x").data))) = some rect
      ∧ (∀ i j, i < lastDataRowOf (List.replicate 10 (List.replicate 5 (( "x").data)))
          → j < lastDataColOf (List.replicate 10 (List.replicate 5 (( "x").data)))
          → inClearRect rect (1 + i) (columnToIndex (( "A").data) + j))
      ∧ ((∀ i j, i < (List.replicate 5 (List.replicate 3 (( "y").data))).length
          → j < dataMaxWidth (List.replicate 5 (List.replicate 3 (( "y").data)))
          → inClearRect rect (1 + i) (columnToIndex (( "A").data) + j))
        ↔ dataMaxWidth (List.replicate 5 (List.replicate 3 (( "y").data)))
            ≤ max (lastDataColOf (List.replicate 10 (List.replicate 5 (( "x").data))))
                (firstRowWidth (List.replicate 5 (List.replicate 3 (( "y").data)))) + 1) :=
  clearContinuousRange_covers (( "A").data) 1
    (List.replicate 5 (List.replicate 3 (( "y").data)))
    (List.replicate 10 (List.replicate 5 (( "x").data)))
    (by decide)

/-! ## The title row (C6) -/

/-- C6, counterexample: with title `T` and `transpose = true` the title row
is still inserted (it becomes the first column of the transposed output),
contradicting "inserted only when transpose is false", under which the
output would be the plain transpose of the data. -/
theorem titleRow_transpose_counterexample :
    trim (( "T").data) ≠ []
    ∧ (processData [[( "a").data, ( "b").data]] (some (( "T").data)) true (( "ts").data)).1
      = [[( "T").data, ( "a").data], [( "ts").data, ( "b").data]]
    ∧ (processData [[( "a").data, ( "b").data]] (some (( "T").data)) true (( "ts").data)).1
      ≠ transposeData [[( "a").data, ( "b").data]] := by decide

/-- C6 (amended): when a non-empty title is configured, exactly one title row
is prepended — its first cell the trimmed title text, its last cell the
execution timestamp, its width at least 2 after padding — and this happens
regardless of the transpose flag: when transposing, the title row is
transposed together with the data rather than omitted. -/
theorem processData_title (data : List (List Cell)) (title ts : Str) (tp : Bool)
    (h : trim title ≠ []) :
    ∃ titleRow rest,
      (addTitleRow data (some title) ts).1 = titleRow :: rest
      ∧ rest.length = data.length
      ∧ 2 ≤ titleRow.length
      ∧ titleRow.headD [] = trim title
      ∧ titleRow.getLast? = some ts
      ∧ (processData data (some title) tp ts).1
        = (if tp then transposeData (titleRow :: rest) else titleRow :: rest) := by
  cases data with
  | nil =>
    refine ⟨trim title :: (List.replicate 0 [] ++ [ts]), [],
      ?_, by simp, by simp, by simp, by simp, ?_⟩
    · simp [addTitleRow, h]
    · simp [processData, addTitleRow, h]
  | cons r rest' =>
    by_cases hw : r.length < 2
    · refine ⟨trim title :: (List.replicate 0 [] ++ [ts]), (r :: rest').map (padRow 2),
        ?_, by simp, by simp, by simp, by simp, ?_⟩
      · simp [addTitleRow, h, hw]
      · simp [processData, addTitleRow, h, hw]
    · refine ⟨trim title :: (List.replicate (r.length - 2) [] ++ [ts]),
        r :: rest', ?_, rfl, ?_, by simp, ?_, ?_⟩
      · simp [addTitleRow, h, hw]
      · simp
      · rw [show trim title :: (List.replicate (r.length - 2) [] ++ [ts])
            = (trim title :: List.replicate (r.length - 2) []) ++ [ts] from rfl]
        exact List.getLast?_concat _
      · simp [processData, addTitleRow, h, hw]

/-- Witness for `processData_title`: a two-column single-row upload with
title `T`, transposing. -/
theorem processData_title_witness :
    ∃ titleRow rest,
      (addTitleRow [[( "a").data, ( "b").data]] (some (( "T").data)) (( "ts").data)).1
        = titleRow :: rest
      ∧ rest.length = 1
      ∧ 2 ≤ titleRow.length
      ∧ titleRow.headD [] = trim (( "T").data)
      ∧ titleRow.getLast? = some (( "ts").data)
      ∧ (processData [[( "a").data, ( "b").data]] (some (( "T").data)) true (( "ts").data)).1
        = (if true then transposeData (titleRow :: rest) else titleRow :: rest) :=
  processData_title [[( "a").data, ( "b").data]] (( "T").data) (( "ts").data) true (by decide)

/-! ## Empty result sets produce no mutation (C10) -/

/-- C10: for every configuration that passes validation (not skipped,
spreadsheet id present, sheet identifier present, start location present,
start cell well-formed when present), an empty query result list makes
`exportQueryToSheet` issue no spreadsheet operation at all and return no
upload result — so no directive rewrite can follow. -/
theorem exportQueryToSheet_empty_results (env : SheetsEnv) (sqlQuery : Str)
    (config : SqlSheetConfiguration) (sfc gc : Bool)
    (hskip : config.skip = false) (hsql : sqlQuery ≠ [])
    (hid : ∃ s, config.spreadsheet_id = some s ∧ s ≠ [])
    (hsheet : (∃ n, config.sheet_id = some n)
      ∨ (config.sheet_id = none ∧ ∃ nm, config.sheet_name = some nm ∧ trim nm ≠ []))
    (hstart : (∃ s, config.start_cell = some s ∧ trim s ≠ [])
      ∨ (∃ s, config.start_named_range = some s ∧ trim s ≠ []))
    (hcell : ∀ s, config.start_cell = some s → trim s ≠ [] →
      (parseCellReference (trim s)).isSome = true) :
    exportQueryToSheet env sqlQuery config sfc gc [] = ([], ExportOutcome.returned none) := by
  obtain ⟨sid, hsid, hsidne⟩ := hid
  have hnamedCheck : (match config.start_cell.map trim with
      | some s => !s.isEmpty && (parseCellReference s).isNone
      | none => false) = false := by
    match hc : config.start_cell with
    | none => simp
    | some s =>
      by_cases he : trim s = []
      · simp [he]
      · have hpn : parseCellReference (trim s) ≠ none :=
          Option.isSome_iff_ne_none.mp (hcell s hc he)
        simp [he, hpn, hcell s hc he]
  rcases hsheet with ⟨n, hn⟩ | ⟨hnone, nm, hnm, hnmne⟩
  · rcases hstart with ⟨s, hsc, hscne⟩ | ⟨s, hsr, hsrne⟩
    · have hpn : parseCellReference (trim s) ≠ none :=
        Option.isSome_iff_ne_none.mp (hcell s hsc hscne)
      cases sfc <;> cases gc <;>
        simp [exportQueryToSheet, hskip, hsql, hsid, hsidne, hn, hsc, hscne, hpn]
    · cases sfc <;> cases gc <;>
        simp [exportQueryToSheet, hskip, hsql, hsid, hsidne, hn, hsr, hsrne, hnamedCheck]
  · rcases hstart with ⟨s, hsc, hscne⟩ | ⟨s, hsr, hsrne⟩
    · have hpn : parseCellReference (trim s) ≠ none :=
        Option.isSome_iff_ne_none.mp (hcell s hsc hscne)
      cases sfc <;> cases gc <;>
        simp [exportQueryToSheet, hskip, hsql, hsid, hsidne, hnone, hnm, hnmne, hsc, hscne,
          hpn]
    · cases sfc <;> cases gc <;>
        simp [exportQueryToSheet, hskip, hsql, hsid, hsidne, hnone, hnm, hnmne, hsr, hsrne,
          hnamedCheck]

/-- Witness for `exportQueryToSheet_empty_results` at a concrete validated
configuration. -/
theorem exportQueryToSheet_empty_results_witness :
    exportQueryToSheet {} (( "SELECT 1").data)
      { spreadsheet_id := some (( "S").data)
        sheet_name := some (( "Sheet1").data)
        start_cell := some (( "A1").data) } true true []
      = ([], ExportOutcome.returned none) :=
  exportQueryToSheet_empty_results {} (( "SELECT 1").data)
    { spreadsheet_id := some (( "S").data)
      sheet_name := some (( "Sheet1").data)
      start_cell := some (( "A1").data) } true true rfl (by decide)
    ⟨( "S").data, rfl, by decide⟩
    (Or.inr ⟨rfl, ( "Sheet1").data, rfl, by decide⟩)
    (Or.inl ⟨( "A1").data, rfl, by decide⟩)
    (by intro s hs hne; cases Option.some.inj hs; decide)

/-! ## The rewriter writes only changed fields (C7) -/

/-- C7: the rewriter can only produce `start_cell` and `sheet_name` edits;
each start-cell edit requires the newly formatted combined start value to
differ from the one recorded in the destination configuration (and carries
the new value); each sheet edit likewise requires a changed, non-empty
formatted sheet parameter; and when both formatted values are unchanged — in
particular when the upload result echoes the recorded configuration, as on a
re-run with unchanged configuration and identical data — no edit at all is
produced. -/
theorem updateStartCellParameter_only_changed
    (cfg : SqlSheetConfiguration) (res : ViewUploadResult)
    (mq td : Bool) (idx : Nat) (scr snr : Bool) :
    (∀ v, RewriteEdit.startCellEdit v
        ∈ updateStartCellParameterForDestination (some cfg) res mq td idx scr snr →
      formatStartCellParameter (res.startNamedRange <|> cfg.start_named_range) res.startCell
          ≠ formatStartCellParameter cfg.start_named_range cfg.start_cell
        ∧ v = formatStartCellParameter (res.startNamedRange <|> cfg.start_named_range)
            res.startCell)
    ∧ (∀ v, RewriteEdit.sheetNameEdit v
        ∈ updateStartCellParameterForDestination (some cfg) res mq td idx scr snr →
      formatSheetNameParameter (res.sheetId <|> cfg.sheet_id) (res.sheetName <|> cfg.sheet_name)
          ≠ formatSheetNameParameter cfg.sheet_id cfg.sheet_name
        ∧ formatSheetNameParameter (res.sheetId <|> cfg.sheet_id)
            (res.sheetName <|> cfg.sheet_name) ≠ []
        ∧ v = formatSheetNameParameter (res.sheetId <|> cfg.sheet_id)
            (res.sheetName <|> cfg.sheet_name))
    ∧ (formatStartCellParameter (res.startNamedRange <|> cfg.start_named_range) res.startCell
          = formatStartCellParameter cfg.start_named_range cfg.start_cell →
        formatSheetNameParameter (res.sheetId <|> cfg.sheet_id)
            (res.sheetName <|> cfg.sheet_name)
          = formatSheetNameParameter cfg.sheet_id cfg.sheet_name →
        updateStartCellParameterForDestination (some cfg) res mq td idx scr snr = [])
    ∧ (res.startNamedRange = cfg.start_named_range → res.startCell = cfg.start_cell →
        res.sheetId = cfg.sheet_id → res.sheetName = cfg.sheet_name →
        updateStartCellParameterForDestination (some cfg) res mq td idx scr snr = []) := by
  have horelse : ∀ (o : Option Str), (o <|> o) = o := by
    intro o; cases o <;> rfl
  have horelseN : ∀ (o : Option Nat), (o <|> o) = o := by
    intro o; cases o <;> rfl
  unfold updateStartCellParameterForDestination
  cases hnr : res.startNamedRange <|> cfg.start_named_range with
  | none =>
    simp only [hnr]
    refine ⟨by simp, by simp, by simp, ?_⟩
    intro h1 h2 h3 h4
    simp
  | some nr =>
    simp only [hnr]
    have hfmt : formatStartCellParameter (res.startNamedRange <|> cfg.start_named_range)
        res.startCell = formatStartCellParameter (some nr) res.startCell := by rw [hnr]
    cases mq with
    | false =>
      refine ⟨by simp, by simp, by simp, by intro _ _ _ _; simp⟩
    | true =>
      cases td with
      | false =>
        refine ⟨by simp, by simp, by simp, by intro _ _ _ _; simp⟩
      | true =>
        simp only [Bool.not_true, Bool.false_eq_true, if_false]
        refine ⟨?_, ?_, ?_, ?_⟩
        · intro v hv
          split_ifs at hv with h1 h2 h3 h4 h5 h6 h7 h8 h9 h10 h11 h12 h13 h14 <;>
            simp_all [hfmt]
        · intro v hv
          split_ifs at hv with h1 h2 h3 h4 h5 h6 h7 h8 h9 h10 h11 h12 h13 h14 <;>
            simp_all [hfmt]
        · intro hstartEq hsheetEq
          simp [hstartEq, hsheetEq]
        · intro h1 h2 h3 h4
          have e1 : (res.startNamedRange <|> cfg.start_named_range) = cfg.start_named_range := by
            rw [h1, horelse]
          have e2 : (res.sheetId <|> cfg.sheet_id) = cfg.sheet_id := by
            rw [h3, horelseN]
          have e3 : (res.sheetName <|> cfg.sheet_name) = cfg.sheet_name := by
            rw [h4, horelse]
          have hstartEq : formatStartCellParameter (some nr) res.startCell
              = formatStartCellParameter cfg.start_named_range cfg.start_cell := by
            rw [← hnr, e1, h2]
          have hsheetEq : formatSheetNameParameter (res.sheetId <|> cfg.sheet_id)
              (res.sheetName <|> cfg.sheet_name)
              = formatSheetNameParameter cfg.sheet_id cfg.sheet_name := by
            rw [e2, e3]
          simp [hstartEq, hsheetEq]

/-- Witness for `updateStartCellParameter_only_changed`: an upload result
echoing the recorded configuration produces no edits. -/
theorem updateStartCellParameter_only_changed_witness :
    updateStartCellParameterForDestination
      (some { start_named_range := some (( "SQLS_ab").data),
              start_cell := some (( "A1").data),
              sheet_id := some 7, sheet_name := some (( "Sheet1").data) })
      { startCell := some (( "A1").data), startNamedRange := some (( "SQLS_ab").data),
        sheetId := some 7, sheetName := some (( "Sheet1").data) }
      true true 0 true true = [] :=
  (updateStartCellParameter_only_changed
    { start_named_range := some (( "SQLS_ab").data), start_cell := some (( "A1").data),
      sheet_id := some 7, sheet_name := some (( "Sheet1").data) }
    { startCell := some (( "A1").data), startNamedRange := some (( "SQLS_ab").data),
      sheetId := some 7, sheetName := some (( "Sheet1").data) }
    true true 0 true true).2.2.2 rfl rfl rfl rfl

/-! ## Destinations per separator group (C5) -/

/-- The effect of one header line on the current directive set: separator
lines and non-directive lines leave it unchanged; `--key: value` lines other
than `pre_file` override the key. -/
def directiveStep (cur : Params) (l : Str) : Params :=
  if isSeparatorLine (trim l) then cur
  else
    match matchParamLine l with
    | some (k, v) => if k = preFileKey then cur else setParam cur k v
    | none => cur

/-- Apply a group of header lines to a starting directive set. -/
def applyGroup (start : Params) (g : List Str) : Params := g.foldl directiveStep start

/-- Split header lines into the separator-delimited directive groups: `k`
separator lines yield `k + 1` groups. -/
def splitGroups : List Str → List (List Str)
  | [] => [[]]
  | l :: rest =>
    if isSeparatorLine (trim l) then [] :: splitGroups rest
    else
      match splitGroups rest with
      | g :: gs => (l :: g) :: gs
      | [] => [[l]]

theorem splitGroups_ne_nil (ls : List Str) : splitGroups ls ≠ [] := by
  cases ls with
  | nil => simp [splitGroups]
  | cons l rest =>
    simp only [splitGroups]
    by_cases h : isSeparatorLine (trim l) = true
    · simp [h]
    · simp only [h, if_false]
      cases hs : splitGroups rest with
      | nil => simp
      | cons g gs => simp

theorem splitGroups_length (ls : List Str) :
    (splitGroups ls).length = ls.countP (fun l => isSeparatorLine (trim l)) + 1 := by
  induction ls with
  | nil => simp [splitGroups]
  | cons l rest ih =>
    simp only [splitGroups, List.countP_cons]
    by_cases h : isSeparatorLine (trim l) = true
    · simp [h, ih]
    · simp only [h, if_false]
      cases hs : splitGroups rest with
      | nil => exact absurd hs (splitGroups_ne_nil rest)
      | cons g gs =>
        rw [hs] at ih
        simp at ih
        simp [ih]

theorem buildDestinationsAux_eq (defaults : Params) :
    ∀ (lines : List Str) (cur : Params),
      buildDestinationsAux defaults lines cur
        = match splitGroups lines with
          | g :: gs => applyGroup cur g :: gs.map (applyGroup defaults)
          | [] => [] := by
  intro lines
  induction lines with
  | nil => intro cur; simp [buildDestinationsAux, splitGroups, applyGroup]
  | cons l rest ih =>
    intro cur
    by_cases h : isSeparatorLine (trim l) = true
    · simp only [buildDestinationsAux, h, if_true, splitGroups]
      rw [ih defaults]
      cases hs : splitGroups rest with
      | nil => exact absurd hs (splitGroups_ne_nil rest)
      | cons g gs => simp [applyGroup]
    · have hstep : buildDestinationsAux defaults (l :: rest) cur
          = buildDestinationsAux defaults rest (directiveStep cur l) := by
        simp only [buildDestinationsAux, h, if_false, directiveStep]
        match hm : matchParamLine l with
        | some (k, v) =>
          by_cases hk : k = preFileKey
          · simp [hk]
          · simp [hk]
        | none => simp
      rw [hstep, ih (directiveStep cur l)]
      simp only [splitGroups, h, if_false]
      cases hs : splitGroups rest with
      | nil => exact absurd hs (splitGroups_ne_nil rest)
      | cons g gs => simp [applyGroup]

theorem extractDefaults_excluded_aux (k : Str) (hk : k ∈ nonInheritableDefaults) :
    ∀ (lines : List Str) (acc : Params), acc k = none →
      extractDefaultParameters lines acc k = none := by
  intro lines
  induction lines with
  | nil => intro acc hacc; simpa [extractDefaultParameters] using hacc
  | cons l rest ih =>
    intro acc hacc
    simp only [extractDefaultParameters]
    by_cases he : (trim l).isEmpty = true
    · simp only [he, if_true]
      exact ih acc hacc
    · simp only [he, if_false]
      match hm : matchParamLine (trim l) with
      | some (q, v) =>
        by_cases hq1 : q = preFileKey
        · simp only [hq1, if_true]
          exact ih acc hacc
        · simp only [hq1, if_false]
          by_cases hq2 : q ∈ nonInheritableDefaults
          · simp only [hq2, if_true]
            exact ih acc hacc
          · simp only [hq2, if_false]
            apply ih
            have hne : k ≠ q := fun h => hq2 (h ▸ hk)
            simp [setParam, hne, hacc]
      | none =>
        by_cases hc : ((trim l).take 2 == dashDash) = true
        · simp only [hc, if_true]
          exact ih acc hacc
        · simp only [hc, if_false]
          exact hacc

/-- C5: every query block gets exactly one destination directive set per
separator-delimited group — one more than the number of `-- N` separator
lines in its header region, and exactly one equal to the defaults when the
header region is empty; each destination is the document defaults overridden
by the `--key: value` lines of its own group; and the document defaults
never contain the `start_cell`, `name` or `table_name` keys. -/
theorem parseBlockDestinations_spec :
    (∀ (defaults : Params) (blockLines : List Str),
      (parseBlockDestinationParams defaults blockLines).length
        = (headerLinesOf blockLines).countP (fun l => isSeparatorLine (trim l)) + 1)
    ∧ (∀ (defaults : Params) (blockLines : List Str), headerLinesOf blockLines = [] →
        parseBlockDestinationParams defaults blockLines = [defaults])
    ∧ (∀ (defaults : Params) (blockLines : List Str),
        parseBlockDestinationParams defaults blockLines
          = (splitGroups (headerLinesOf blockLines)).map (applyGroup defaults))
    ∧ (∀ (docLines : List Str) (k : Str), k ∈ nonInheritableDefaults →
        extractDefaultParameters docLines emptyParams k = none) := by
  have hmain : ∀ (defaults : Params) (blockLines : List Str),
      parseBlockDestinationParams defaults blockLines
        = (splitGroups (headerLinesOf blockLines)).map (applyGroup defaults) := by
    intro defaults blockLines
    rw [parseBlockDestinationParams]
    by_cases h : (headerLinesOf blockLines).isEmpty = true
    · have h' : headerLinesOf blockLines = [] := by simpa using h
      simp [h, h', splitGroups, applyGroup]
    · simp only [h, if_false]
      rw [buildDestinationsAux_eq]
      cases hs : splitGroups (headerLinesOf blockLines) with
      | nil => exact absurd hs (splitGroups_ne_nil _)
      | cons g gs => simp
  refine ⟨?_, ?_, hmain, ?_⟩
  · intro defaults blockLines
    rw [hmain defaults blockLines]
    simp [splitGroups_length]
  · intro defaults blockLines h
    rw [hmain defaults blockLines, h]
    simp [splitGroups, applyGroup]
  · intro docLines k hk
    exact extractDefaults_excluded_aux k hk docLines emptyParams rfl

/-- Witness for `parseBlockDestinations_spec`: a block whose only line is SQL
has an empty header region and gets exactly the defaults, and a document
whose first line sets `start_cell` leaves no `start_cell` default. -/
theorem parseBlockDestinations_spec_witness :
    parseBlockDestinationParams emptyParams [( "SELECT 1").data] = [emptyParams]
    ∧ extractDefaultParameters [( "--start_cell: A1").data] emptyParams
        (( "start_cell").data) = none :=
  ⟨parseBlockDestinations_spec.2.1 emptyParams [( "SELECT 1").data] (by decide),
    parseBlockDestinations_spec.2.2.2 [( "--start_cell: A1").data]
      (( "start_cell").data) (by decide)⟩

/-! ## Pre-file execution: at-most-once, termination, cycles (C8) -/

/-- Invariant of a successful pre-file run: the executed set only grows, the
execution trace has no duplicates, and every traced path was previously
unexecuted, is now in the executed set, and was not being processed. -/
theorem execPreFile_invariant (fs : FileSystem) :
    ∀ (fuel : Nat) (p : Path) (executed processing e' t : List Path),
      execPreFile fs fuel p executed processing = Except.ok (e', t) →
      (∀ q ∈ executed, q ∈ e') ∧ t.Nodup
        ∧ ∀ q ∈ t, q ∉ executed ∧ q ∈ e' ∧ q ∉ processing := by
  intro fuel
  induction fuel with
  | zero =>
    intro p executed processing e' t h
    simp [execPreFile] at h
  | succ fuel ih =>
    have ihList : ∀ (ps : List Path) (processing executed e' t : List Path),
        runEach (fun q e => execPreFile fs fuel q e processing) ps executed
          = Except.ok (e', t) →
        (∀ q ∈ executed, q ∈ e') ∧ t.Nodup
          ∧ ∀ q ∈ t, q ∉ executed ∧ q ∈ e' ∧ q ∉ processing := by
      intro ps
      induction ps with
      | nil =>
        intro processing executed e' t h
        simp only [runEach] at h
        obtain ⟨he, ht⟩ := Prod.mk.injEq .. ▸ (Except.ok.inj h)
        subst he; subst ht
        exact ⟨fun q hq => hq, by simp, by simp⟩
      | cons p rest ihr =>
        intro processing executed e' t h
        simp only [runEach] at h
        cases h1 : execPreFile fs fuel p executed processing with
        | error e => rw [h1] at h; simp [bind, Except.bind] at h
        | ok pr =>
          obtain ⟨e1, t1⟩ := pr
          rw [h1] at h
          simp only [bind, Except.bind] at h
          cases h2 : runEach (fun q e => execPreFile fs fuel q e processing) rest e1 with
          | error e => rw [h2] at h; simp at h
          | ok pr2 =>
            obtain ⟨e2, t2⟩ := pr2
            rw [h2] at h
            simp only [Except.ok.injEq, Prod.mk.injEq] at h
            obtain ⟨he, ht⟩ := h
            subst he; subst ht
            obtain ⟨m1, nd1, f1⟩ := ih p executed processing e1 t1 h1
            obtain ⟨m2, nd2, f2⟩ := ihr processing e1 e2 t2 h2
            refine ⟨fun q hq => m2 q (m1 q hq), ?_, ?_⟩
            · rw [List.nodup_append]
              refine ⟨nd1, nd2, ?_⟩
              intro q hq1 hq2
              exact (f2 q hq2).1 (f1 q hq1).2.1
            · intro q hq
              rcases List.mem_append.mp hq with hq | hq
              · obtain ⟨ha, hb, hc⟩ := f1 q hq
                exact ⟨ha, m2 q hb, hc⟩
              · obtain ⟨ha, hb, hc⟩ := f2 q hq
                exact ⟨fun hx => ha (m1 q hx), hb, hc⟩
    intro p executed processing e' t h
    simp only [execPreFile] at h
    by_cases hex : p ∈ executed
    · rw [if_pos hex] at h
      obtain ⟨he, ht⟩ := Prod.mk.injEq .. ▸ (Except.ok.inj h)
      subst he; subst ht
      exact ⟨fun q hq => hq, by simp, by simp⟩
    · rw [if_neg hex] at h
      by_cases hpr : p ∈ processing
      · rw [if_pos hpr] at h
        exact absurd h (by simp)
      · rw [if_neg hpr] at h
        cases hlk : lookupFile fs p with
        | none => rw [hlk] at h; simp at h
        | some f =>
          rw [hlk] at h
          simp only [bind, Except.bind] at h
          cases h1 : runEach (fun q e => execPreFile fs fuel q e (p :: processing))
              f.nested executed with
          | error e => rw [h1] at h; simp at h
          | ok pr =>
            obtain ⟨e1, t1⟩ := pr
            rw [h1] at h
            obtain ⟨m1, nd1, f1⟩ := ihList f.nested (p :: processing) executed e1 t1 h1
            cases hse : f.shouldExecute with
            | true =>
              rw [hse] at h
              simp only [if_true, Except.ok.injEq, Prod.mk.injEq] at h
              obtain ⟨he, ht⟩ := h
              subst he; subst ht
              refine ⟨fun q hq => List.mem_cons_of_mem p (m1 q hq), ?_, ?_⟩
              · rw [List.nodup_append]
                refine ⟨nd1, by simp, ?_⟩
                intro q hq1 hq2
                simp only [List.mem_singleton] at hq2
                rw [hq2] at hq1
                exact (f1 p hq1).2.2 (List.mem_cons_self p processing)
              · intro q hq
                rcases List.mem_append.mp hq with hq | hq
                · obtain ⟨ha, hb, hc⟩ := f1 q hq
                  exact ⟨ha, List.mem_cons_of_mem p hb,
                    fun hx => hc (List.mem_cons_of_mem p hx)⟩
                · simp only [List.mem_singleton] at hq
                  rw [hq]
                  exact ⟨hex, List.mem_cons_self p e1, hpr⟩
            | false =>
              rw [hse] at h
              simp only [Bool.false_eq_true, if_false, Except.ok.injEq, Prod.mk.injEq] at h
              obtain ⟨he, ht⟩ := h
              subst he; subst ht
              refine ⟨fun q hq => List.mem_cons_of_mem p (m1 q hq), nd1, ?_⟩
              intro q hq
              obtain ⟨ha, hb, hc⟩ := f1 q hq
              exact ⟨ha, List.mem_cons_of_mem p hb, fun hx => hc (List.mem_cons_of_mem p hx)⟩

/-- The number of accessible files not currently being processed: the
recursion depth bound of the pre-file chain. -/
def pending (fs : FileSystem) (processing : List Path) : Nat :=
  ((fs.map Prod.fst).filter (fun q => decide (q ∉ processing))).length

theorem length_filter_le_of_imp {p q : Path → Bool} (l : List Path)
    (h : ∀ x, p x = true → q x = true) :
    (l.filter p).length ≤ (l.filter q).length := by
  induction l with
  | nil => simp
  | cons a t ih =>
    rw [List.filter_cons, List.filter_cons]
    by_cases hpa : p a = true
    · rw [if_pos hpa, if_pos (h a hpa)]
      simpa using ih
    · rw [if_neg hpa]
      by_cases hqa : q a = true
      · rw [if_pos hqa]
        simp only [List.length_cons]
        omega
      · rw [if_neg hqa]
        exact ih

theorem length_filter_lt_of_witness {p q : Path → Bool} (l : List Path) (x : Path)
    (hx : x ∈ l) (himp : ∀ y, p y = true → q y = true)
    (hpx : p x = false) (hqx : q x = true) :
    (l.filter p).length < (l.filter q).length := by
  induction l with
  | nil => simp at hx
  | cons a t ih =>
    rw [List.filter_cons, List.filter_cons]
    by_cases ha : a = x
    · subst ha
      rw [if_neg (by simp [hpx]), if_pos hqx]
      simp only [List.length_cons]
      have := length_filter_le_of_imp t himp
      omega
    · have hxt : x ∈ t := by
        rcases List.mem_cons.mp hx with h | h
        · exact absurd h.symm ha
        · exact h
      have hlt := ih hxt
      by_cases hpa : p a = true
      · rw [if_pos hpa, if_pos (himp a hpa)]
        simpa using hlt
      · rw [if_neg hpa]
        by_cases hqa : q a = true
        · rw [if_pos hqa]
          simp only [List.length_cons]
          omega
        · rw [if_neg hqa]
          exact hlt

theorem lookupFile_mem {fs : FileSystem} {p : Path} {f : PreFile}
    (h : lookupFile fs p = some f) : p ∈ fs.map Prod.fst := by
  rw [lookupFile] at h
  cases hf : fs.find? (fun e => e.1 == p) with
  | none => rw [hf] at h; simp at h
  | some entry =>
    have hmem := List.mem_of_find?_eq_some hf
    have hpred := List.find?_some hf
    simp only [beq_iff_eq] at hpred
    rw [← hpred]
    exact List.mem_map_of_mem Prod.fst hmem

theorem pending_cons_lt {fs : FileSystem} {p : Path} {processing : List Path}
    (hp : p ∈ fs.map Prod.fst) (hnp : p ∉ processing) :
    pending fs (p :: processing) < pending fs processing := by
  apply length_filter_lt_of_witness (fs.map Prod.fst) p hp
  · intro y hy
    simp only [decide_eq_true_eq] at hy ⊢
    exact fun hmem => hy (List.mem_cons_of_mem p hmem)
  · simp
  · simp [hnp]

theorem execPreFile_fuelSufficient (fs : FileSystem) :
    ∀ (fuel : Nat) (p : Path) (executed processing : List Path),
      pending fs processing < fuel →
      execPreFile fs fuel p executed processing ≠ Except.error PreFileError.outOfFuel := by
  intro fuel
  induction fuel with
  | zero => intro p executed processing hlt; omega
  | succ fuel ih =>
    have ihList : ∀ (ps : List Path) (processing executed : List Path),
        pending fs processing < fuel →
        runEach (fun q e => execPreFile fs fuel q e processing) ps executed
          ≠ Except.error PreFileError.outOfFuel := by
      intro ps
      induction ps with
      | nil => intro processing executed hlt h; simp [runEach] at h
      | cons p rest ihr =>
        intro processing executed hlt h
        simp only [runEach] at h
        cases h1 : execPreFile fs fuel p executed processing with
        | error e =>
          rw [h1] at h
          simp only [bind, Except.bind] at h
          obtain he := Except.error.inj h
          rw [he] at h1
          exact ih p executed processing hlt h1
        | ok pr =>
          obtain ⟨e1, t1⟩ := pr
          rw [h1] at h
          simp only [bind, Except.bind] at h
          cases h2 : runEach (fun q e => execPreFile fs fuel q e processing) rest e1 with
          | error e =>
            rw [h2] at h
            obtain he := Except.error.inj h
            rw [he] at h2
            exact ihr processing e1 hlt h2
          | ok pr2 => rw [h2] at h; simp at h
    intro p executed processing hlt h
    simp only [execPreFile] at h
    by_cases hex : p ∈ executed
    · rw [if_pos hex] at h; simp at h
    · rw [if_neg hex] at h
      by_cases hpr : p ∈ processing
      · rw [if_pos hpr] at h; simp at h
      · rw [if_neg hpr] at h
        cases hlk : lookupFile fs p with
        | none => rw [hlk] at h; simp at h
        | some f =>
          rw [hlk] at h
          simp only [bind, Except.bind] at h
          have hplt : pending fs (p :: processing) < fuel := by
            have := pending_cons_lt (lookupFile_mem hlk) hpr
            omega
          cases h1 : runEach (fun q e => execPreFile fs fuel q e (p :: processing))
              f.nested executed with
          | error e =>
            rw [h1] at h
            obtain he := Except.error.inj h
            rw [he] at h1
            exact ihList f.nested (p :: processing) executed hplt h1
          | ok pr =>
            obtain ⟨e1, t1⟩ := pr
            rw [h1] at h
            cases hse : f.shouldExecute <;> rw [hse] at h <;> simp at h

instance exceptResultDecEq : DecidableEq (Except PreFileError (List Path × List Path)) :=
  fun a b =>
    match a, b with
    | Except.ok x, Except.ok y => decidable_of_iff (x = y) (by simp)
    | Except.error e, Except.error f => decidable_of_iff (e = f) (by simp)
    | Except.ok _, Except.error _ => isFalse (by simp)
    | Except.error _, Except.ok _ => isFalse (by simp)

/-- C8: pre-files are executed at most once per run (a path already in the
executed set never appears in the execution trace, and the trace has no
duplicates); the recursion terminates — with fuel exceeding the number of
accessible unprocessed files the fuel is never exhausted; and the two-file
cycle `A.sql → B.sql → A.sql` fails with a circular-dependency error naming
the re-encountered path instead of recursing forever. -/
theorem execPreFile_spec :
    (∀ (fs : FileSystem) (fuel : Nat) (p : Path) (executed processing e' t : List Path),
      execPreFile fs fuel p executed processing = Except.ok (e', t) →
      (∀ q ∈ executed, q ∉ t) ∧ t.Nodup)
    ∧ (∀ (fs : FileSystem) (fuel : Nat) (p : Path) (executed processing : List Path),
        pending fs processing < fuel →
        execPreFile fs fuel p executed processing ≠ Except.error PreFileError.outOfFuel)
    ∧ execPreFile
        [((( "A.sql").data), ⟨[( "B.sql").data], true⟩),
          ((( "B.sql").data), ⟨[( "A.sql").data], true⟩)] 3
        (( "A.sql").data) [] []
        = Except.error (PreFileError.circular (( "A.sql").data)) := by
  refine ⟨?_, execPreFile_fuelSufficient, ?_⟩
  · intro fs fuel p executed processing e' t h
    obtain ⟨m, nd, f⟩ := execPreFile_invariant fs fuel p executed processing e' t h
    exact ⟨fun q hq ht => (f q ht).1 hq, nd⟩
  · decide

/-- Witness for `execPreFile_spec` at a one-file system. -/
theorem execPreFile_spec_witness :
    ((∀ q ∈ ([] : List Path), q ∉ ([( "A.sql").data] : List Path))
        ∧ ([( "A.sql").data] : List Path).Nodup)
    ∧ execPreFile [((( "A.sql").data), ⟨[], true⟩)] 2 (( "A.sql").data) [] []
        ≠ Except.error PreFileError.outOfFuel :=
  ⟨execPreFile_spec.1 [((( "A.sql").data), ⟨[], true⟩)] 2 (( "A.sql").data) [] []
      [( "A.sql").data] [( "A.sql").data] (by decide),
    execPreFile_spec.2.1 [((( "A.sql").data), ⟨[], true⟩)] 2 (( "A.sql").data) [] []
      (by decide)⟩

end SqlSheets
